import Mathlib

/-!
Shallow embedding of the versioning / lineage-resolution core of the
DataCI repository (stage store `dataci/db/stage.py`, stage model
`dataci/models/stage.py`, dataset listing and construction
`dataci/dataset/__init__.py`, dataset identity `dataci/dataset/dataset.py`).

The repository snapshot mixes two revisions of the code: the model layer
(`dataci/models/stage.py`) imports `update_one_stage` and
`get_next_stage_version_id`, which do not exist in the store module
(`dataci/db/stage.py`) of the snapshot, and the SQL schema of the `stage`
and `stage_tag` tables is absent (`dataci/db/init.py` creates only the
dataset-side tables).  Definitions below are translated from the source
wherever the source exists; every definition that models a missing piece
carries a doc comment starting with `Modelled from the spec:`.

Strings are Lean `String`s (lists of characters, matching the pre-UTF8
byte representation of Python `str` for the ASCII data handled here).
Dynamic Python failures (AttributeError on `None.startswith`, TypeError
on subscripting `None` or on `'v' + int`) are modelled with an explicit
error type, and fallible operations return `Except`.
-/

/-- Python errors that the translated code can raise dynamically. -/
inductive PyErr where
  | valueError
  | attributeError
  | typeError
deriving Repr, DecidableEq

/-- Python truthiness of an optional string: `None` and `''` are falsy. -/
def pyTruthyOpt : Option String → Bool
  | none => false
  | some s => s ≠ ""

/-- Python `str.lower` for one ASCII character. -/
def charLower (c : Char) : Char :=
  if 65 ≤ c.toNat ∧ c.toNat ≤ 90 then Char.ofNat (c.toNat + 32) else c

/-- Python `str.lower` (ASCII model). -/
def pyLower (s : String) : String := ⟨s.data.map charLower⟩

/-- Python `str(x)` on an optional string: `None` prints as `"None"`. -/
def pyStrOpt : Option String → String
  | none => "None"
  | some s => s

/-! ### Decimal printing and parsing (Python `str(int)` / `int(str)`) -/

/-- Character of a single decimal digit. -/
def digitChar (d : Nat) : Char := Char.ofNat (48 + d)

/-- Numeric value of a decimal digit character. -/
def charVal (c : Char) : Nat := c.toNat - 48

/-- Little-endian decimal digits of `n`, with explicit fuel so that the
definition is structural and kernel-reduces. -/
def natDigitsRevF : Nat → Nat → List Nat
  | 0, _ => []
  | _ + 1, 0 => []
  | f + 1, n => (n % 10) :: natDigitsRevF f (n / 10)

/-- Python `str(n)` for a natural number. -/
def natToString (n : Nat) : String :=
  if n == 0 then "0" else ⟨((natDigitsRevF n n).reverse).map digitChar⟩

/-- Accumulating decimal value of a most-significant-first digit list. -/
def valFold : List Nat → Nat → Nat
  | [], acc => acc
  | d :: ds, acc => valFold ds (acc * 10 + d)

/-- Value of a little-endian digit list. -/
def ofRev : List Nat → Nat
  | [] => 0
  | d :: ds => d + 10 * ofRev ds

/-- Python `int(s)` on a nonnegative decimal string: `None` on anything
that is not a nonempty all-digit string. -/
def parseDigits (cs : List Char) : Option Nat :=
  if cs ≠ [] ∧ cs.all Char.isDigit then some (valFold (cs.map charVal) 0) else none

theorem valFold_append (a b : List Nat) (acc : Nat) :
    valFold (a ++ b) acc = valFold b (valFold a acc) := by
  induction a generalizing acc with
  | nil => rfl
  | cons d ds ih => simp [valFold, ih]

theorem valFold_reverse (l : List Nat) (acc : Nat) :
    valFold l.reverse acc = acc * 10 ^ l.length + ofRev l := by
  induction l generalizing acc with
  | nil => simp [valFold, ofRev]
  | cons d ds ih =>
      simp only [List.reverse_cons, valFold_append, ih, valFold, ofRev, List.length_cons]
      ring

theorem ofRev_natDigitsRevF (f n : Nat) (hf : n ≤ f) :
    ofRev (natDigitsRevF f n) = n := by
  induction f generalizing n with
  | zero =>
      interval_cases n
      rfl
  | succ f ih =>
      match n with
      | 0 => rfl
      | Nat.succ m =>
          have hdiv : (m + 1) / 10 ≤ f := by
            have := Nat.div_lt_self (Nat.succ_pos m) (by norm_num : 1 < 10)
            omega
          simp only [natDigitsRevF, ofRev, ih _ hdiv]
          omega

theorem natDigitsRevF_lt_ten (f n : Nat) : ∀ d ∈ natDigitsRevF f n, d < 10 := by
  induction f generalizing n with
  | zero => intro d hd; simp [natDigitsRevF] at hd
  | succ f ih =>
      match n with
      | 0 => intro d hd; simp [natDigitsRevF] at hd
      | Nat.succ m =>
          intro d hd
          simp only [natDigitsRevF, List.mem_cons] at hd
          rcases hd with h | h

          · omega
          · exact ih _ d h

theorem digitChar_isDigit : ∀ d, d < 10 → (digitChar d).isDigit = true := by decide

theorem charVal_digitChar : ∀ d, d < 10 → charVal (digitChar d) = d := by decide

theorem parseDigits_natToString (n : Nat) (hn : 0 < n) :
    parseDigits (natToString n).data = some n := by
  have hne : natDigitsRevF n n ≠ [] := by
    match n, hn with
    | Nat.succ m, _ => simp [natDigitsRevF]
  have hlt := natDigitsRevF_lt_ten n n
  have hmk : (natToString n).data = ((natDigitsRevF n n).reverse).map digitChar := by
    have : (n == 0) = false := by simp only [beq_eq_false_iff_ne]; omega
    simp [natToString, this]
  have hall : (((natDigitsRevF n n).reverse).map digitChar).all Char.isDigit = true := by
    simp only [List.all_eq_true, List.mem_map, List.mem_reverse]
    rintro c ⟨d, hd, rfl⟩
    exact digitChar_isDigit d (hlt d hd)
  have hnil : ((natDigitsRevF n n).reverse).map digitChar ≠ [] := by
    simp [hne]
  have hmap : (((natDigitsRevF n n).reverse).map digitChar).map charVal
      = (natDigitsRevF n n).reverse := by
    rw [List.map_map]
    have hpt : ∀ d ∈ (natDigitsRevF n n).reverse, (charVal ∘ digitChar) d = id d := by
      intro d hd
      rw [List.mem_reverse] at hd
      simp [charVal_digitChar d (hlt d hd)]
    rw [List.map_congr_left hpt, List.map_id]
  rw [hmk]
  unfold parseDigits
  rw [if_pos ⟨hnil, hall⟩, hmap, valFold_reverse]
  simp [ofRev_natDigitsRevF n n le_rfl]

/-! ### Glob matching

Models the pattern language shared (up to edge cases irrelevant here) by
SQLite `GLOB`, Python `fnmatch` and `pathlib.glob`: `*` (any run), `?`
(any one character), `[...]` character classes with ranges and a leading
negation marker (`^` in SQLite, `!` in fnmatch; both accepted).
Recursion is fueled so that the functions are structural and
kernel-reduce; the default fuel is always sufficient (each step consumes
a pattern token or an input character). -/

/-- One compiled glob token. -/
inductive GlobTok where
  | star
  | qmark
  | lit (c : Char)
  | cls (neg : Bool) (set : List Char)
deriving Repr, DecidableEq

/-- Splits a leading class-negation marker. -/
def splitNeg : List Char → Bool × List Char
  | '^' :: r => (true, r)
  | '!' :: r => (true, r)
  | l => (false, l)

/-- Scans a character class up to the closing bracket; `none` when the
class is unterminated. -/
def scanSet : List Char → Option (List Char × List Char)
  | [] => none
  | ']' :: rest => some ([], rest)
  | c :: rest =>
      match scanSet rest with
      | some (s, r) => some (c :: s, r)
      | none => none

/-- Membership of a character in the raw contents of a class, with
`a-b` ranges. -/
def memSet : List Char → Char → Bool
  | a :: '-' :: b :: rest, c => (a ≤ c ∧ c ≤ b) || memSet rest c
  | a :: rest, c => (a == c) || memSet rest c
  | [], _ => false

/-- Class match including the negation flag. -/
def matchSet (neg : Bool) (set : List Char) (c : Char) : Bool :=
  if neg then !(memSet set c) else memSet set c

/-- Compiles a glob pattern to tokens (fueled; an unterminated class
falls back to a literal bracket, as in fnmatch). -/
def compileGlobF : Nat → List Char → List GlobTok
  | 0, _ => []
  | _ + 1, [] => []
  | f + 1, c :: ps =>
      if c == '*' then .star :: compileGlobF f ps
      else if c == '?' then .qmark :: compileGlobF f ps
      else if c == '[' then
        match scanSet (splitNeg ps).2 with
        | some (s, rest) => .cls (splitNeg ps).1 s :: compileGlobF f rest
        | none => .lit '[' :: compileGlobF f ps
      else .lit c :: compileGlobF f ps

/-- Compiled form of a glob pattern. -/
def compileGlob (ps : List Char) : List GlobTok := compileGlobF (ps.length + 1) ps

/-- Token-level glob matching (fueled). -/
def globTokMatchF : Nat → List GlobTok → List Char → Bool
  | 0, _, _ => false
  | _ + 1, [], [] => true
  | _ + 1, [], _ :: _ => false
  | f + 1, .star :: ps, [] => globTokMatchF f ps []
  | f + 1, .star :: ps, t :: ts =>
      globTokMatchF f ps (t :: ts) || globTokMatchF f (.star :: ps) ts
  | f + 1, .qmark :: ps, _ :: ts => globTokMatchF f ps ts
  | _ + 1, .qmark :: _, [] => false
  | f + 1, .lit c :: ps, t :: ts => c == t && globTokMatchF f ps ts
  | _ + 1, .lit _ :: _, [] => false
  | f + 1, .cls neg set :: ps, t :: ts => matchSet neg set t && globTokMatchF f ps ts
  | _ + 1, .cls _ _ :: _, [] => false

/-- Glob match of a whole pattern against a whole string. -/
def globMatch (pat s : String) : Bool :=
  globTokMatchF (pat.data.length + s.data.length + 1) (compileGlob pat.data) s.data

/-! ### The stage store (`dataci/db/stage.py`)

The `stage` table row carries the columns used by the module's queries
(`get_many_stages` additionally selects a `symbolize` column that
`create_one_stage` does not insert; the row type carries it as an
optional field).  `params` is kept as its JSON serialization, which is
how the table stores it. -/

structure StageRow where
  workspace : String
  name : String
  version : Option String
  params : String
  script_path : String
  timestamp : Int
  symbolize : Option String
deriving Repr, DecidableEq

/-- Modelled from the spec: the `stage_tag` schema is absent from the
repository's db init script; §3 fixes `tag` as "a monotonically
increasing integer alias", so the column is an SQL INTEGER and rows
carry the `int(...)` value that `create_one_stage_tag` inserts. -/
structure StageTagRow where
  workspace : String
  name : String
  version : String
  tag : Nat
deriving Repr, DecidableEq

/-- The relational store relevant to stages. -/
structure StageDB where
  stages : List StageRow
  stage_tags : List StageTagRow
deriving Repr, DecidableEq

/-- The `INSERT INTO stage` of `create_one_stage`. -/
def create_one_stage (db : StageDB) (row : StageRow) : StageDB :=
  { db with stages := db.stages ++ [row] }

/-- The `INSERT INTO stage_tag` of `create_one_stage_tag`: the
`version_tag` string (e.g. `"v1"`) is converted by `int(version_tag[1:])`,
which raises on a non-numeric remainder (modelled as `none`). -/
def create_one_stage_tag (db : StageDB) (workspace name version : String)
    (version_tag : String) : Option StageDB :=
  match parseDigits (version_tag.data.drop 1) with
  | none => none
  | some t =>
      some { db with stage_tags := db.stage_tags ++ [⟨workspace, name, version, t⟩] }

/-- Tag rows of one `(workspace, name)`. -/
def tagRowsFor (db : StageDB) (workspace name : String) : List StageTagRow :=
  db.stage_tags.filter fun t => t.workspace == workspace && t.name == name

/-- Tag integers of one `(workspace, name)`, in table order. -/
def tagsFor (db : StageDB) (workspace name : String) : List Nat :=
  (tagRowsFor db workspace name).map (·.tag)

/-- The `SELECT COALESCE(MAX(tag), 0) + 1` of `get_next_stage_version_tag`,
already prefixed with `'v'` as the source returns it. -/
def get_next_stage_version_tag (db : StageDB) (workspace name : String) : String :=
  "v" ++ natToString ((tagsFor db workspace name).foldl max 0 + 1)

/-- The `SELECT tag FROM stage_tag WHERE ...` of `get_stage_tag_or_none`
(`(cur.fetchone() or [None])[0]`). -/
def get_stage_tag_or_none (db : StageDB) (workspace name version : String) : Option Nat :=
  ((db.stage_tags.filter fun t =>
      t.workspace == workspace && t.name == name && t.version == version).head?).map (·.tag)

/-- The `exist_stage` query: a version string starting with `'v'` is
looked up in the tag table by its integer remainder, anything else by
exact match in the stage table; a `None` version hits
`None.startswith('v')` and raises AttributeError. -/
def exist_stage (db : StageDB) (workspace name : String) (version : Option String) :
    Except PyErr Bool :=
  match version with
  | none => .error .attributeError
  | some v =>
      if v.data.head? == some 'v' then
        .ok (db.stage_tags.any fun t =>
          t.workspace == workspace && t.name == name
            && parseDigits v.data.tail == some t.tag)
      else
        .ok (db.stages.any fun r =>
          r.workspace == workspace && r.name == name && r.version == some v)

/-- The single fetched record of `get_one_stage` as Python builds it.
With an INTEGER `tag` column the expression
`'v' + po[3] if po[3] else None` raises TypeError (`str + int`) whenever
the joined tag is non-zero, so the assembled `tag` field can only ever
be `None`. -/
structure StageRecord where
  workspace : String
  name : String
  version : Option String
  tag : Option String
  params : String
  script_path : String
  timestamp : Int
deriving Repr, DecidableEq

/-- Assembles the `tag` dict entry from the fetched integer column. -/
def assembleTag : Option Nat → Except PyErr (Option String)
  | none => .ok none
  | some t => if t == 0 then .ok none else .error .typeError

/-- The single tag row selected by `ORDER BY tag DESC LIMIT 1` (among
equal tags the scan order decides; the first row is kept). -/
def maxTagRow : List StageTagRow → Option StageTagRow
  | [] => none
  | t :: ts =>
      match maxTagRow ts with
      | none => some t
      | some m => if t.tag < m.tag then some m else some t

/-- The row pair selected by the `version='latest'` query of
`get_one_stage`: the highest tag row for `(workspace, name)` joined with
the stage row owning that version. -/
def get_one_stage_latest_select (db : StageDB) (workspace name : String) :
    Option (StageRow × StageTagRow) :=
  match maxTagRow (tagRowsFor db workspace name) with
  | none => none
  | some t =>
      match (db.stages.filter fun r =>
          r.workspace == workspace && r.name == name && r.version == some t.version).head? with
      | none => none
      | some r => some (r, t)

/-- The `get_one_stage` stored query.  A `None` version raises
AttributeError (`None.startswith`); an empty fetch raises TypeError
(`po[0]` on `None`); building the record of a tagged row raises
TypeError (`'v' + int`). -/
def get_one_stage (db : StageDB) (workspace name : String)
    (version : Option String) : Except PyErr StageRecord :=
  match version with
  | none => .error .attributeError
  | some v =>
      if v == "latest" then
        match get_one_stage_latest_select db workspace name with
        | none => .error .typeError
        | some (r, t) =>
            match assembleTag (some t.tag) with
            | .error e => .error e
            | .ok tg =>
                .ok ⟨r.workspace, r.name, r.version, tg, r.params, r.script_path, r.timestamp⟩
      else if v.data.head? == some 'v' then
        match ((tagRowsFor db workspace name).filter fun t =>
            parseDigits v.data.tail == some t.tag).head? with
        | none => .error .typeError
        | some t =>
            match (db.stages.filter fun r =>
                r.workspace == workspace && r.name == name
                  && r.version == some t.version).head? with
            | none => .error .typeError
            | some r =>
                match assembleTag (some t.tag) with
                | .error e => .error e
                | .ok tg =>
                    .ok ⟨r.workspace, r.name, r.version, tg, r.params,
                      r.script_path, r.timestamp⟩
      else
            match (db.stages.filter fun r =>
                r.workspace == workspace && r.name == name && r.version == some v).head? with
            | none => .error .typeError
            | some r =>
                match assembleTag (((db.stage_tags.filter fun t =>
                    t.workspace == workspace && t.name == name
                      && t.version == v).head?).map (·.tag)) with
                | .error e => .error e
                | .ok tg =>
                    .ok ⟨r.workspace, r.name, r.version, tg, r.params,
                      r.script_path, r.timestamp⟩

/-- Strict lexicographic (byte-wise) order on character lists: the TEXT
ordering SQLite's `ORDER BY` uses. -/
def charListLt : List Char → List Char → Bool
  | [], [] => false
  | [], _ :: _ => true
  | _ :: _, [] => false
  | a :: as, b :: bs => Nat.blt a.toNat b.toNat || (a == b && charListLt as bs)

/-- TEXT ordering on strings. -/
def strLt (a b : String) : Bool := charListLt a.data b.data

/-- Version key used by the `ORDER BY version DESC` of `get_many_stages`
(SQL TEXT ordering over the non-NULL, non-empty versions the query
admits). -/
def verKey (r : StageRow) : String := r.version.getD ""

/-- The row kept by `ROW_NUMBER() OVER (... ORDER BY version DESC) = 1`
within one partition: the row with the greatest version string, the
earlier row winning among equals. -/
def maxVersionRow : List StageRow → Option StageRow
  | [] => none
  | r :: rs =>
      match maxVersionRow rs with
      | none => some r
      | some m => if strLt (verKey r) (verKey m) then some m else some r

/-- The distinct `(workspace, name)` partition keys, in scan order. -/
def stageKeys (rows : List StageRow) : List (String × String) :=
  (rows.map fun r => (r.workspace, r.name)).dedup

/-- All `_rn = 1` rows of the window query of `get_many_stages`. -/
def latestPerPartition (rows : List StageRow) : List StageRow :=
  (stageKeys rows).filterMap fun k =>
    maxVersionRow (rows.filter fun r => r.workspace == k.1 && r.name == k.2)

/-- The `get_many_stages` query.  `version=None` is replaced by `''` and
then answered from the `version = ''` head query (whose dead
`po is None` fallback never fires, `fetchall` returning a list);
`'latest'` is answered from the window query over `version <> ''` rows,
ignoring the tag table entirely; any other version is a GLOB filter.
The SQL comparisons never match NULL versions. -/
def get_many_stages (db : StageDB) (workspace name : String)
    (version : Option String) (all : Bool := false) : List StageRow :=
  let v := match version with
    | none => ""
    | some s => s
  if v == "" then
    db.stages.filter fun r =>
      r.workspace == workspace && r.name == name && r.version == some ""
  else if v == "latest" then
    latestPerPartition (db.stages.filter fun r =>
      r.workspace == workspace && globMatch name r.name
        && (match r.version with | some s => s ≠ "" | none => false))
  else
    db.stages.filter fun r =>
      r.workspace == workspace && globMatch name r.name
        && (match r.version with
            | some s => globMatch v s && (all || s ≠ "")
            | none => false)

/-! ### The stage model layer (`dataci/models/stage.py`)

`Stage.save` and `Stage.publish` are written against a newer revision of
the store module than the one in the snapshot: they import
`update_one_stage` and `get_next_stage_version_id`, which
`dataci/db/stage.py` does not define, and they persist the row shape of
their own `dict()` (no `params` column, a `symbolize` column, `version
None` for the mutable HEAD working copy).  Their store is therefore
embedded separately; the two helpers that are absent from the snapshot
are modelled from the spec and say so in their doc comments. -/

structure StageRowV2 where
  workspace : String
  name : String
  version : Option String
  script_path : String
  timestamp : Option Int
  symbolize : Option String
deriving Repr, DecidableEq

/-- The store as the model layer sees it. -/
structure SaveDB where
  rows : List StageRowV2
deriving Repr, DecidableEq

/-- The in-memory `Stage` object fields that `save`/`publish` touch. -/
structure StageObj where
  workspace : String
  name : String
  version : Option String
  script : String
  symbolize : Option String
  create_date : Option Int
deriving Repr, DecidableEq

/-- Modelled from the spec: the store-existence check that `Stage.save`
calls with `version=None` (§4.4 `exists(workspace,name,version)`); the
store revision accepting the HEAD `None` version is absent from the
snapshot (the present `exist_stage` raises on `None`). -/
def exist_stage_v2 (db : SaveDB) (workspace name : String) (version : Option String) : Bool :=
  db.rows.any fun r => r.workspace == workspace && r.name == name && r.version == version

/-- The `INSERT` of the model layer's `create_one_stage` call. -/
def create_one_stage_v2 (db : SaveDB) (cfg : StageRowV2) : SaveDB :=
  ⟨db.rows ++ [cfg]⟩

/-- Modelled from the spec: `update_one_stage` is imported by
`Stage.save` but absent from the snapshot's store module; §3 makes the
HEAD working copy the one mutable record, so the update overwrites the
fields of the row(s) keyed `(workspace, name, version)`. -/
def update_one_stage (db : SaveDB) (cfg : StageRowV2) : SaveDB :=
  ⟨db.rows.map fun r =>
    if r.workspace == cfg.workspace && r.name == cfg.name && r.version == cfg.version
    then cfg else r⟩

/-- The config dict built inside `Stage.save`: `version` forced to
`None`, `timestamp` set to the current wall clock, the script path
rewritten to the HEAD directory. -/
def stage_save_config (st : StageObj) (now : Int) : StageRowV2 :=
  { workspace := st.workspace, name := st.name, version := none
  , script_path := st.name ++ "/HEAD/script.py"
  , timestamp := some now, symbolize := st.symbolize }

/-- The `reload` of `Stage`: adopts version and timestamp from a config
(`datetime.fromtimestamp(ts) if ts else None`, so a zero timestamp
reloads as `None`). -/
def stage_reload (st : StageObj) (version : Option String) (timestamp : Option Int) :
    StageObj :=
  { st with
    version := version,
    create_date := (match timestamp with
      | some t => if t == 0 then none else some t
      | none => none) }

/-- `Stage.save`: build the HEAD config with the current time, insert it
when no HEAD row exists, otherwise overwrite the HEAD row; either way
reload the object from the fresh config.  (The script file write under
`.../HEAD/script.py` happens on both branches and is outside the store
model.) -/
def stage_save (db : SaveDB) (st : StageObj) (now : Int) : SaveDB × StageObj :=
  let cfg := stage_save_config st now
  let db2 :=
    if exist_stage_v2 db st.workspace st.name none
    then update_one_stage db cfg
    else create_one_stage_v2 db cfg
  (db2, stage_reload st cfg.version cfg.timestamp)

/-- The numeric published versions stored for one `(workspace, name)`. -/
def numericVersions (db : SaveDB) (workspace name : String) : List Nat :=
  db.rows.filterMap fun r =>
    if r.workspace == workspace && r.name == name
    then r.version.bind fun s => parseDigits s.data
    else none

/-- Modelled from the spec: `get_next_stage_version_id` is imported by
`Stage.publish` but absent from the snapshot's store module; §4.4 fixes
the allocation as `max(existing) + 1` per `(workspace, name)`, taken
here over the numeric published versions in the stage table. -/
def get_next_stage_version_id (db : SaveDB) (workspace name : String) : Nat :=
  (numericVersions db workspace name).foldl max 0 + 1

/-- `Stage.publish`: save first, then unconditionally allocate the next
numeric id, copy the HEAD script directory to the new version directory,
and insert a fresh version row built from the object's state after the
save.  No tag-ownership check of any kind is performed and
`get_stage_tag_or_none` is never called. -/
def stage_publish (db : SaveDB) (st : StageObj) (now : Int) : SaveDB × StageObj :=
  let p := stage_save db st now
  let ver := natToString (get_next_stage_version_id p.1 st.workspace st.name)
  let cfg : StageRowV2 :=
    { workspace := st.workspace, name := st.name, version := some ver
    , script_path := st.name ++ "/" ++ ver ++ "/script.py"
    , timestamp := (p.2).create_date, symbolize := st.symbolize }
  (create_one_stage_v2 p.1 cfg, stage_reload p.2 cfg.version cfg.timestamp)

/-- Modelled from the spec: §4.6 composes `publish` as save plus
"atomically allocate the next tag integer and attach it"; the
attachment helper wired into `Stage.publish` is absent from the
snapshot, while the store module's allocator
(`get_next_stage_version_tag`) and attacher (`create_one_stage_tag`)
are present and are composed here exactly as §4.6 prescribes. -/
def publish_attach_tag (db : StageDB) (workspace name version : String) : Option StageDB :=
  create_one_stage_tag db workspace name version
    (get_next_stage_version_tag db workspace name)

/-- A sequence of publishes of the given version strings against one
`(workspace, name)`. -/
def publish_seq (db : StageDB) (workspace name : String) : List String → Option StageDB
  | [] => some db
  | v :: vs =>
      match publish_attach_tag db workspace name v with
      | none => none
      | some db2 => publish_seq db2 workspace name vs

/-! ### Lineage graph edges (`Stage.add_downstream`, `dataci/models/stage.py`)

The workflow context carries a `networkx.DiGraph`; `add_downstream`
raises ValueError when no DAG is set and otherwise calls
`dag.add_edge(self, stage)`, which inserts the edge unconditionally
(`DiGraph.add_edge` deduplicates but never rejects). -/

/-- The DAG of the workflow context, as its edge list. -/
abbrev LineageGraph := List (String × String)

/-- `DiGraph.add_edge`: idempotent insertion, no rejection of any kind. -/
def dag_add_edge (g : LineageGraph) (a b : String) : LineageGraph :=
  if (a, b) ∈ g then g else g ++ [(a, b)]

/-- `Stage.add_downstream` (`self >> stage`): ValueError when the
context has no DAG, otherwise add the edge and return the downstream
stage. -/
def add_downstream (ctx : Option LineageGraph) (a b : String) :
    Except PyErr (LineageGraph × String) :=
  match ctx with
  | none => .error .valueError
  | some dag => .ok (dag_add_edge dag a b, b)

/-- Fueled reachability along directed edges (at least one step). -/
def reachableWithin : Nat → LineageGraph → String → String → Bool
  | 0, _, _, _ => false
  | fuel + 1, g, a, b =>
      g.any fun e => e.1 == a && (e.2 == b || reachableWithin fuel g e.2 b)

/-- A directed cycle exists: some edge can reach back to its source. -/
def hasCycle (g : LineageGraph) : Bool :=
  g.any fun e => e.1 == e.2 || reachableWithin g.length g e.2 e.1

/-! ### Dataset fingerprinting (`Dataset._build_config`,
`dataci/dataset/__init__.py`) -/

/-- A dataset file as the fingerprint sees it: its path (the value the
source passes) together with the content the digest streams. -/
structure FileEntry where
  path : String
  content : String
deriving Repr, DecidableEq

/-- The config dict built by `Dataset._build_config`. -/
structure DatasetConfig where
  timestamp : Int
  parent_dataset : Option String
  yield_pipeline : List String
  log_message : String
  version : String
deriving Repr, DecidableEq

/-- Modelled from the spec: `generate_dataset_version_id`
(`dataci/dataset/utils.py`) is absent from the snapshot.  §4.1 makes it
a digest of the canonically-serialized semantic fields — streamed file
contents, producing pipeline, log message, parent dataset — and of
nothing else; the digest function itself is modelled as the canonical
serialization (its choice does not affect which fields enter the
hash input). -/
def generate_dataset_version_id (fileContents : List String)
    (yield_pipeline : List String) (log_message : String)
    (parent_dataset : Option String) : String :=
  "sha:" ++ String.intercalate "," fileContents ++ ";"
    ++ String.intercalate "," yield_pipeline ++ ";"
    ++ log_message ++ ";" ++ pyStrOpt parent_dataset

/-- `Dataset._build_config`: normalizes `yield_pipeline` and
`log_message` (`x or default`), stamps the current wall-clock time, and
computes `version` from the dataset files, the pipeline, the log message
and the parent dataset only — `create_date` is set first but never
passed to the fingerprint. -/
def dataset_build_config (now : Int) (dataset_files : List FileEntry)
    (yield_pipeline : Option (List String)) (log_message : Option String)
    (parent_dataset : Option String) : DatasetConfig :=
  let yp := match yield_pipeline with
    | none => []
    | some l => l
  let lm := match log_message with
    | none => ""
    | some s => s
  { timestamp := now
  , parent_dataset := parent_dataset
  , yield_pipeline := yp
  , log_message := lm
  , version := generate_dataset_version_id (dataset_files.map (·.content)) yp lm
      parent_dataset }

/-! ### Dataset identity (`dataci/dataset/dataset.py`) -/

/-- The `Dataset` object fields that `__repr__`, `__str__`, `__hash__`
and `__eq__` can observe (plus a few semantic fields, to express that
identity ignores them). -/
structure DatasetObj where
  workspaceName : String
  name : String
  version : Option String
  log_message : String
  parent_name : Option String
  filename : String
deriving Repr, DecidableEq

/-- `Dataset.__repr__`: the `workspace.name@version` identity when
workspace name, name and version are all truthy, otherwise the
`! Unpublished` form. -/
def datasetRepr (d : DatasetObj) : String :=
  if d.workspaceName ≠ "" ∧ d.name ≠ "" ∧ pyTruthyOpt d.version then
    d.workspaceName ++ "." ++ d.name ++ "@" ++ d.version.getD ""
  else
    d.workspaceName ++ "." ++ d.name ++ " ! Unpublished"

/-- `Dataset.__str__`: always `workspace.name@version`, a `None` version
rendering as the literal text `None`. -/
def datasetStr (d : DatasetObj) : String :=
  d.workspaceName ++ "." ++ d.name ++ "@" ++ pyStrOpt d.version

/-- The string `Dataset.__hash__` hashes (`hash(str(self))`); the
embedding compares these strings directly (Python's `hash` is a fixed
function of them). -/
def datasetHashInput (d : DatasetObj) : String := datasetStr d

/-- A Python value on the right of `==`: a `Dataset` or anything else. -/
inductive PyObject where
  | ds (d : DatasetObj)
  | other (tag : String)
deriving Repr, DecidableEq

/-- `Dataset.__eq__`: repr equality for Datasets, `False` for any other
type. -/
def datasetEq (d : DatasetObj) (o : PyObject) : Bool :=
  match o with
  | .ds e => datasetRepr d == datasetRepr e
  | .other _ => false

/-- The store row fields `Dataset.from_dict` copies into the object
(`dataci/dataset/dataset.py` lines 92-99): in particular the version is
adopted verbatim from the row, so an empty-string version is
constructible. -/
structure DatasetRowConfig where
  workspace : String
  name : String
  version : String
  log_message : String
  filename : String
deriving Repr, DecidableEq

/-- `Dataset.from_dict`, restricted to the identity-relevant fields. -/
def dataset_from_dict (cfg : DatasetRowConfig) : DatasetObj :=
  { workspaceName := cfg.workspace, name := cfg.name, version := some cfg.version
  , log_message := cfg.log_message, parent_name := none, filename := cfg.filename }

/-! ### Dataset identifier parsing (`LIST_DATASET_IDENTIFIER_PATTERN`,
`dataci/dataset/__init__.py`)

The pattern is
`^([\w.*[\]]+?)(?:@([\da-f]{1,40}))?(?:\[(train|val|test|all)])?$`
with `re.IGNORECASE`.  The name group is lazy, so the match uses the
shortest name prefix whose remainder parses as the optional version and
split groups; both optional groups are greedy.  The matcher below
realizes exactly that backtracking order. -/

/-- Characters admitted by the name class `[\w.*[\]]` (ASCII `\w`). -/
def isNameChar (c : Char) : Bool :=
  c.isAlphanum || c == '_' || c == '.' || c == '*' || c == '[' || c == ']'

/-- Hex-digit characters of the version group (case-insensitive). -/
def isHexChar (c : Char) : Bool :=
  c.isDigit || ('a' ≤ c ∧ c ≤ 'f') || ('A' ≤ c ∧ c ≤ 'F')

/-- The split alternatives `(train|val|test|all)`, case-insensitively. -/
def isSplitWord (cs : List Char) : Bool :=
  let l := cs.map charLower
  l == "train".data || l == "val".data || l == "test".data || l == "all".data

/-- Parses `\[(train|val|test|all)]$` at the very end of the input. -/
def parseSplitGroup : List Char → Option (List Char)
  | '[' :: rest =>
      let body := rest.takeWhile (· ≠ ']')
      match rest.drop body.length with
      | [']'] => if isSplitWord body then some body else none
      | _ => none
  | _ => none

/-- Parses `(?:@([\da-f]{1,40}))?(?:\[(train|val|test|all)])?$` after
the name group; returns the two groups on success. -/
def parseAfterName (rest : List Char) :
    Option (Option (List Char) × Option (List Char)) :=
  match rest with
  | [] => some (none, none)
  | c :: r =>
      if c == '[' then
        match parseSplitGroup ('[' :: r) with
        | some sp => some (none, some sp)
        | none => none
      else if c == '@' then
        let hex := r.takeWhile isHexChar
        if hex.length == 0 || 40 < hex.length then none
        else
          match r.drop hex.length with
          | [] => some (some hex, none)
          | c2 :: r2 =>
              if c2 == '[' then
                match parseSplitGroup ('[' :: r2) with
                | some sp => some (some hex, some sp)
                | none => none
              else none
      else none

/-- The lazy name group: grows one character at a time (each must lie in
the name class) and stops at the first length whose remainder parses. -/
def lazyNameMatch (pre rest : List Char) :
    Option (List Char × Option (List Char) × Option (List Char)) :=
  match rest with
  | [] => none
  | c :: rs =>
      if isNameChar c then
        match parseAfterName rs with
        | some (v, sp) => some (pre ++ [c], v, sp)
        | none => lazyNameMatch (pre ++ [c]) rs
      else none

/-- `LIST_DATASET_IDENTIFIER_PATTERN.match`, returning the three groups. -/
def listDatasetIdentMatch (s : String) :
    Option (String × Option String × Option String) :=
  match lazyNameMatch [] s.data with
  | none => none
  | some (nm, v, sp) => some (⟨nm⟩, v.map (⟨·⟩), sp.map (⟨·⟩))

/-! ### Dataset listing (`list_dataset`, `dataci/dataset/__init__.py`)

The repository state is modelled as the dataset directories with their
per-split yaml files and the version keys each yaml holds.  The source
rebinds the loop variable `split` to `split_path.stem` inside the inner
loop, so from the second dataset directory on the yaml glob uses the
stem last processed instead of the parsed split pattern; the scan below
keeps that behaviour. -/

structure SplitFile where
  stem : String
  versions : List String
deriving Repr, DecidableEq

structure DatasetDir where
  dirName : String
  files : List SplitFile
deriving Repr, DecidableEq

structure RepoModel where
  datasets : List DatasetDir
deriving Repr, DecidableEq

/-- The nested scan of `list_dataset` over the name-matched dataset
directories, threading the rebound `split` variable; yields
`(dataset, split, version)` triples in scan order (the
`tree_view=False` flat shape). -/
def listScanDirs (version : String) : List DatasetDir → String →
    List (String × String × String)
  | [], _ => []
  | d :: rest, splitPat =>
      let splits := d.files.filter fun f =>
        globMatch (splitPat ++ ".yaml") (f.stem ++ ".yaml")
      let out := splits.flatMap fun f =>
        (f.versions.filter fun v => globMatch version v).map fun v =>
          (d.dirName, f.stem, v)
      let nextSplit := match splits.getLast? with
        | some f => f.stem
        | none => splitPat
      out ++ listScanDirs version rest nextSplit

/-- `list_dataset`: parse the identifier (ValueError on no match),
default the groups (`name or '*'`, version lowered plus a trailing `*`,
split lowered with `all` mapped to `*`), then scan the matched dataset
directories. -/
def list_dataset (repo : RepoModel) (dataset_identifier : Option String) :
    Except PyErr (List (String × String × String)) :=
  let ident := match dataset_identifier with
    | none => "*"
    | some s => if s == "" then "*" else s
  match listDatasetIdentMatch ident with
  | none => .error .valueError
  | some (nm, ver, sp) =>
      let dataset_name := if nm == "" then "*" else nm
      let version := pyLower (match ver with | none => "" | some v => v) ++ "*"
      let split0 := pyLower (match sp with | none => "*" | some s0 => if s0 == "" then "*" else s0)
      let split1 := if split0 == "all" then "*" else split0
      .ok (listScanDirs version
        (repo.datasets.filter fun d => globMatch dataset_name d.dirName) split1)

/-! ### Stage identifier parsing and `Stage.get`
(`dataci/models/stage.py`) -/

/-- Word characters of the stage identifier grammar. -/
def isWordChar (c : Char) : Bool :=
  c.isAlphanum || c == '_' || c == '-'

/-- Modelled from the spec: `GET_DATA_MODEL_IDENTIFIER_PATTERN`
(`dataci/utils.py`) is absent from the snapshot; §4.2 fixes the grammar
`[workspace.]name[@version]` for stages, the version token being a
digest, `v<N>`, `latest`/`HEAD` or similar word.  Returns the groups
`(workspace?, name, version?)`. -/
def getDataModelIdentifierMatch (s : String) :
    Option (Option String × String × Option String) :=
  let parts := s.data.splitOn '@'
  match parts with
  | [before] =>
      (match before.splitOn '.' with
        | [nm] => if nm ≠ [] ∧ nm.all isWordChar then some (none, ⟨nm⟩, none) else none
        | [ws, nm] =>
            if ws ≠ [] ∧ ws.all isWordChar ∧ nm ≠ [] ∧ nm.all isWordChar then
              some (some ⟨ws⟩, ⟨nm⟩, none)
            else none
        | _ => none)
  | [before, ver] =>
      if ver ≠ [] ∧ ver.all (fun c => isWordChar c || c == '.') then
        match before.splitOn '.' with
        | [nm] =>
            if nm ≠ [] ∧ nm.all isWordChar then some (none, ⟨nm⟩, some ⟨ver⟩) else none
        | [ws, nm] =>
            if ws ≠ [] ∧ ws.all isWordChar ∧ nm ≠ [] ∧ nm.all isWordChar then
              some (some ⟨ws⟩, ⟨nm⟩, some ⟨ver⟩)
            else none
        | _ => none
      else none
  | _ => none

/-- `Stage.get`: match the identifier (ValueError on failure),
substitute the default workspace, reject a version supplied both as an
argument and embedded in the name (both truthy), normalize the
surviving version (`lower()`, the literal `'none'` becoming `None`) and
pass it positionally to `get_one_stage` — so an absent version reaches
`get_one_stage` as `None` and the stored default `'latest'` never
applies.  (The `from_dict` script re-execution after the fetch is
outside the store model; the fetched record is returned.) -/
def stage_get (db : StageDB) (defaultWorkspace : String) (name : String)
    (version : Option String) : Except PyErr StageRecord :=
  match getDataModelIdentifierMatch name with
  | none => .error .valueError
  | some (wsOpt, nm, verOpt) =>
      let ws := match wsOpt with
        | some w => if w ≠ "" then w else defaultWorkspace
        | none => defaultWorkspace
      if pyTruthyOpt version ∧ pyTruthyOpt verOpt then .error .valueError
      else
        let v0 := if pyTruthyOpt version then version else verOpt
        let v1 := match v0 with
          | some s =>
              if s ≠ "" then
                (if pyLower s == "none" then none else some (pyLower s))
              else some s
          | none => none
        get_one_stage db ws nm v1

/-! ### Order lemmas for the TEXT ordering -/

theorem charToNat_inj {a b : Char} (h : a.toNat = b.toNat) : a = b :=
  Char.ext (UInt32.toNat.inj h)

theorem charListLt_irrefl (l : List Char) : charListLt l l = false := by
  induction l with
  | nil => rfl
  | cons a as ih =>
      have hb : Nat.blt a.toNat a.toNat = false := by
        rw [← Bool.not_eq_true, Nat.blt_eq]
        omega
      simp [charListLt, ih, hb]

theorem charListLt_trans {a b c : List Char} (hab : charListLt a b = true)
    (hbc : charListLt b c = true) : charListLt a c = true := by
  induction a generalizing b c with
  | nil =>
      match b, c with
      | [], _ => simp [charListLt] at hab
      | _ :: _, [] => simp [charListLt] at hbc
      | _ :: _, _ :: _ => rfl
  | cons x xs ih =>
      match b, c with
      | [], _ => simp [charListLt] at hab
      | _ :: _, [] => simp [charListLt] at hbc
      | y :: ys, z :: zs =>
          simp only [charListLt, Bool.or_eq_true, Bool.and_eq_true, Nat.blt_eq,
            beq_iff_eq] at hab hbc
          rcases hab with h1 | ⟨h1, h1r⟩ <;> rcases hbc with h2 | ⟨h2, h2r⟩
          · have hb : Nat.blt x.toNat z.toNat = true := by rw [Nat.blt_eq]; omega
            simp [charListLt, hb]
          · have hb : Nat.blt x.toNat z.toNat = true := by
              rw [Nat.blt_eq, ← h2]; exact h1
            simp [charListLt, hb]
          · have hb : Nat.blt x.toNat z.toNat = true := by
              rw [Nat.blt_eq, h1]; exact h2
            simp [charListLt, hb]
          · have hxz : x = z := h1.trans h2
            simp [charListLt, hxz, ih h1r h2r]

theorem charListLt_total (a b : List Char) :
    charListLt a b = true ∨ charListLt b a = true ∨ a = b := by
  induction a generalizing b with
  | nil =>
      match b with
      | [] => right; right; rfl
      | _ :: _ => left; rfl
  | cons x xs ih =>
      match b with
      | [] => right; left; rfl
      | y :: ys =>
          rcases Nat.lt_trichotomy x.toNat y.toNat with h | h | h
          · left
            have hb : Nat.blt x.toNat y.toNat = true := by rw [Nat.blt_eq]; exact h
            simp [charListLt, hb]
          · have hxy : x = y := charToNat_inj h
            subst hxy
            rcases ih ys with h2 | h2 | h2
            · left; simp [charListLt, h2]
            · right; left; simp [charListLt, h2]
            · right; right; rw [h2]
          · right; left
            have hb : Nat.blt y.toNat x.toNat = true := by rw [Nat.blt_eq]; exact h
            simp [charListLt, hb]

theorem charListLt_not_lt_trans {a b c : List Char} (hab : charListLt a b = false)
    (hbc : charListLt b c = false) : charListLt a c = false := by
  by_contra hcon
  rw [Bool.not_eq_false] at hcon
  rcases charListLt_total b a with h | h | h
  · have := charListLt_trans h hcon
    rw [this] at hbc
    simp at hbc
  · rw [h] at hab
    simp at hab
  · subst h
    rw [hcon] at hbc
    simp at hbc

theorem strLt_irrefl (s : String) : strLt s s = false := charListLt_irrefl s.data

theorem strLt_not_lt_trans {a b c : String} (hab : strLt a b = false)
    (hbc : strLt b c = false) : strLt a c = false :=
  charListLt_not_lt_trans hab hbc

/-! ### Glob lemmas: literal patterns and trailing/leading stars -/

/-- A character with no special glob meaning. -/
def globPlain (c : Char) : Bool := !(c == '*' || c == '?' || c == '[')

theorem compileGlobF_plain (cs : List Char) : ∀ f, cs.length < f →
    cs.all globPlain = true → compileGlobF f cs = cs.map GlobTok.lit := by
  induction cs with
  | nil =>
      intro f hf _
      obtain ⟨f2, rfl⟩ : ∃ f2, f = f2 + 1 := ⟨f - 1, by omega⟩
      rfl
  | cons c cs2 ih =>
      intro f hf hall
      obtain ⟨f2, rfl⟩ : ∃ f2, f = f2 + 1 := ⟨f - 1, by omega⟩
      simp only [List.all_cons, Bool.and_eq_true, globPlain, Bool.not_eq_true',
        Bool.or_eq_false_iff] at hall
      obtain ⟨⟨⟨hs, hq⟩, hb⟩, hrest⟩ := hall
      simp only [compileGlobF, hs, hq, hb, Bool.false_eq_true, if_false, List.map_cons,
        List.cons.injEq]
      exact ⟨trivial, ih f2 (by simp at hf; omega)
        (by simpa [List.all_eq_true] using hrest)⟩

theorem compileGlobF_plain_star (cs : List Char) : ∀ f, cs.length + 1 < f →
    cs.all globPlain = true →
    compileGlobF f (cs ++ ['*']) = cs.map GlobTok.lit ++ [GlobTok.star] := by
  induction cs with
  | nil =>
      intro f hf _
      obtain ⟨f2, rfl⟩ : ∃ f2, f = f2 + 1 := ⟨f - 1, by omega⟩
      obtain ⟨f3, rfl⟩ : ∃ f3, f2 = f3 + 1 := ⟨f2 - 1, by omega⟩
      rfl
  | cons c cs2 ih =>
      intro f hf hall
      obtain ⟨f2, rfl⟩ : ∃ f2, f = f2 + 1 := ⟨f - 1, by omega⟩
      simp only [List.all_cons, Bool.and_eq_true, globPlain, Bool.not_eq_true',
        Bool.or_eq_false_iff] at hall
      obtain ⟨⟨⟨hs, hq⟩, hb⟩, hrest⟩ := hall
      simp only [List.cons_append, compileGlobF, hs, hq, hb, Bool.false_eq_true, if_false,
        List.map_cons, List.cons_append, List.cons.injEq]
      exact ⟨trivial, ih f2 (by simp at hf; omega)
        (by simpa [List.all_eq_true] using hrest)⟩

theorem globTokMatchF_nil (f : Nat) (x : Char) (xs : List Char) :
    globTokMatchF f [] (x :: xs) = false := by
  match f with
  | 0 => rfl
  | _ + 1 => rfl

theorem globTokMatchF_star (xs : List Char) : ∀ f, xs.length + 2 ≤ f →
    globTokMatchF f [GlobTok.star] xs = true := by
  induction xs with
  | nil =>
      intro f hf
      obtain ⟨f2, rfl⟩ : ∃ f2, f = f2 + 1 := ⟨f - 1, by omega⟩
      obtain ⟨f3, rfl⟩ : ∃ f3, f2 = f3 + 1 := ⟨f2 - 1, by omega⟩
      rfl
  | cons x xs2 ih =>
      intro f hf
      obtain ⟨f2, rfl⟩ : ∃ f2, f = f2 + 1 := ⟨f - 1, by omega⟩
      have : globTokMatchF f2 [GlobTok.star] xs2 = true := ih f2 (by simpa using hf)
      simp [globTokMatchF, this, globTokMatchF_nil]

theorem globTokMatchF_lit_star (cs : List Char) : ∀ xs f,
    cs.length + xs.length + 2 ≤ f →
    globTokMatchF f (cs.map GlobTok.lit ++ [GlobTok.star]) xs = cs.isPrefixOf xs := by
  induction cs with
  | nil =>
      intro xs f hf
      simpa [List.isPrefixOf] using globTokMatchF_star xs f (by omega)
  | cons c cs2 ih =>
      intro xs f hf
      obtain ⟨f2, rfl⟩ : ∃ f2, f = f2 + 1 := ⟨f - 1, by omega⟩
      match xs with
      | [] => rfl
      | x :: xs2 =>
          simp only [List.map_cons, List.cons_append, globTokMatchF, List.isPrefixOf,
            List.append_eq]
          rw [ih xs2 f2 (by simp at hf; omega)]

theorem globTokMatchF_lit_self (cs : List Char) : ∀ f, cs.length + 1 ≤ f →
    globTokMatchF f (cs.map GlobTok.lit) cs = true := by
  induction cs with
  | nil =>
      intro f hf
      obtain ⟨f2, rfl⟩ : ∃ f2, f = f2 + 1 := ⟨f - 1, by omega⟩
      rfl
  | cons c cs2 ih =>
      intro f hf
      obtain ⟨f2, rfl⟩ : ∃ f2, f = f2 + 1 := ⟨f - 1, by omega⟩
      simp [globTokMatchF, ih f2 (by simpa using hf)]

theorem globTokMatchF_star_lit (cs : List Char) : ∀ xs f,
    xs.length + cs.length + 2 ≤ f →
    globTokMatchF f (GlobTok.star :: cs.map GlobTok.lit) (xs ++ cs) = true := by
  intro xs
  induction xs with
  | nil =>
      intro f hf
      obtain ⟨f2, rfl⟩ : ∃ f2, f = f2 + 1 := ⟨f - 1, by omega⟩
      match cs with
      | [] => simpa using globTokMatchF_star [] (f2 + 1) (by simp at hf ⊢; omega)
      | c :: cs2 =>
          have hself : globTokMatchF f2 ((c :: cs2).map GlobTok.lit) (c :: cs2) = true :=
            globTokMatchF_lit_self (c :: cs2) f2 (by simp at hf ⊢; omega)
          have hself2 : globTokMatchF f2
              (GlobTok.lit c :: List.map GlobTok.lit cs2) (c :: cs2) = true := by
            simpa using hself
          show (globTokMatchF f2 ((c :: cs2).map GlobTok.lit) (c :: cs2)
            || globTokMatchF f2 (GlobTok.star :: (c :: cs2).map GlobTok.lit) cs2) = true
          simp [hself2]
  | cons x xs2 ih =>
      intro f hf
      obtain ⟨f2, rfl⟩ : ∃ f2, f = f2 + 1 := ⟨f - 1, by omega⟩
      have : globTokMatchF f2 (GlobTok.star :: cs.map GlobTok.lit) (xs2 ++ cs) = true :=
        ih f2 (by simp at hf ⊢; omega)
      simp [globTokMatchF, this]

/-- A plain (wildcard-free) pattern with a trailing `*` matches exactly
the strings it is a prefix of — the shape `list_dataset` builds for the
version filter. -/
theorem globMatch_plain_star (t s : String) (ht : t.data.all globPlain = true) :
    globMatch (⟨t.data ++ ['*']⟩ : String) s = t.data.isPrefixOf s.data := by
  unfold globMatch compileGlob
  show globTokMatchF _ (compileGlobF _ (t.data ++ ['*'])) s.data = _
  rw [compileGlobF_plain_star t.data _ (by simp) ht]
  exact globTokMatchF_lit_star t.data s.data _ (by simp; omega)

/-- A plain pattern matches itself. -/
theorem globMatch_self (s : String) (hs : s.data.all globPlain = true) :
    globMatch s s = true := by
  unfold globMatch compileGlob
  rw [compileGlobF_plain s.data _ (by omega) hs]
  exact globTokMatchF_lit_self s.data _ (by omega)

/-- A `*`-headed pattern with a plain tail matches any string ending in
that tail — the shape of the `{split}.yaml` filter with split `*`. -/
theorem globMatch_star_suffix (suf xs : List Char) (hs : suf.all globPlain = true) :
    globMatch (⟨'*' :: suf⟩ : String) (⟨xs ++ suf⟩ : String) = true := by
  unfold globMatch compileGlob
  show globTokMatchF _ (compileGlobF _ ('*' :: suf)) (xs ++ suf) = true
  have hc : compileGlobF ((('*' :: suf).length) + 1) ('*' :: suf)
      = GlobTok.star :: suf.map GlobTok.lit := by
    have h1 : compileGlobF ((('*' :: suf).length) + 1) ('*' :: suf)
        = GlobTok.star :: compileGlobF (suf.length + 1) suf := rfl
    rw [h1, compileGlobF_plain suf _ (by omega) hs]
  rw [hc]
  exact globTokMatchF_star_lit suf xs _ (by simp; omega)

/-! ### Selection lemmas for the window and tag queries -/

theorem charListLt_asymm {a b : List Char} (h : charListLt a b = true) :
    charListLt b a = false := by
  by_contra hc
  rw [Bool.not_eq_false] at hc
  have htr := charListLt_trans h hc
  rw [charListLt_irrefl] at htr
  simp at htr

theorem maxVersionRow_eq_none {l : List StageRow} (h : maxVersionRow l = none) :
    l = [] := by
  match l with
  | [] => rfl
  | r :: rs =>
      simp only [maxVersionRow] at h
      split at h
      · simp at h
      · split at h <;> simp at h

theorem maxVersionRow_mem {l : List StageRow} {m : StageRow}
    (h : maxVersionRow l = some m) : m ∈ l := by
  induction l generalizing m with
  | nil => simp [maxVersionRow] at h
  | cons r rs ih =>
      simp only [maxVersionRow] at h
      split at h
      · simp at h
        subst h
        exact List.mem_cons_self r rs
      · rename_i m2 hmr
        split at h
        · simp at h
          subst h
          exact List.mem_cons_of_mem r (ih hmr)
        · simp at h
          subst h
          exact List.mem_cons_self r rs

theorem maxVersionRow_isMax {l : List StageRow} {m : StageRow}
    (h : maxVersionRow l = some m) :
    ∀ x ∈ l, strLt (verKey m) (verKey x) = false := by
  induction l generalizing m with
  | nil => simp [maxVersionRow] at h
  | cons r rs ih =>
      simp only [maxVersionRow] at h
      intro x hx
      split at h
      · rename_i hmr
        have hrs : rs = [] := maxVersionRow_eq_none hmr
        subst hrs
        simp at h hx
        subst h
        subst hx
        exact strLt_irrefl _
      · rename_i m2 hmr
        rcases List.mem_cons.mp hx with hxr | hxs
        · subst hxr
          split at h
          · rename_i hlt
            simp at h
            subst h
            exact charListLt_asymm hlt
          · rename_i hlt
            simp at h
            subst h
            exact strLt_irrefl _
        · have hmax2 := ih hmr x hxs
          split at h
          · rename_i hlt
            simp at h
            subst h
            exact hmax2
          · rename_i hlt
            simp at h
            subst h
            rw [Bool.not_eq_true] at hlt
            exact strLt_not_lt_trans hlt hmax2

theorem latestPerPartition_spec {rows : List StageRow} {r : StageRow}
    (h : r ∈ latestPerPartition rows) :
    r ∈ rows ∧ ∀ x ∈ rows, x.workspace = r.workspace → x.name = r.name →
      strLt (verKey r) (verKey x) = false := by
  unfold latestPerPartition at h
  rcases List.mem_filterMap.mp h with ⟨k, hk, hmax⟩
  have hmem := maxVersionRow_mem hmax
  have hpred := List.mem_filter.mp hmem
  have hws : r.workspace = k.1 := by
    have hp := hpred.2
    simp only [Bool.and_eq_true, beq_iff_eq] at hp
    exact hp.1
  have hnm : r.name = k.2 := by
    have hp := hpred.2
    simp only [Bool.and_eq_true, beq_iff_eq] at hp
    exact hp.2
  refine ⟨hpred.1, ?_⟩
  intro x hx hxw hxn
  have hxf : x ∈ rows.filter fun q => q.workspace == k.1 && q.name == k.2 := by
    apply List.mem_filter.mpr
    refine ⟨hx, ?_⟩
    simp only [Bool.and_eq_true, beq_iff_eq]
    exact ⟨hxw.trans hws, hxn.trans hnm⟩
  exact maxVersionRow_isMax hmax x hxf

theorem maxTagRow_eq_none {l : List StageTagRow} (h : maxTagRow l = none) :
    l = [] := by
  match l with
  | [] => rfl
  | t :: ts =>
      simp only [maxTagRow] at h
      split at h
      · simp at h
      · split at h <;> simp at h

theorem maxTagRow_mem {l : List StageTagRow} {m : StageTagRow}
    (h : maxTagRow l = some m) : m ∈ l := by
  induction l generalizing m with
  | nil => simp [maxTagRow] at h
  | cons t ts ih =>
      simp only [maxTagRow] at h
      split at h
      · simp at h
        subst h
        exact List.mem_cons_self t ts
      · rename_i m2 hmr
        split at h
        · simp at h
          subst h
          exact List.mem_cons_of_mem t (ih hmr)
        · simp at h
          subst h
          exact List.mem_cons_self t ts

theorem maxTagRow_isMax {l : List StageTagRow} {m : StageTagRow}
    (h : maxTagRow l = some m) : ∀ t ∈ l, t.tag ≤ m.tag := by
  induction l generalizing m with
  | nil => simp [maxTagRow] at h
  | cons t ts ih =>
      simp only [maxTagRow] at h
      intro x hx
      split at h
      · rename_i hmr
        have hts : ts = [] := maxTagRow_eq_none hmr
        subst hts
        simp at h hx
        subst h
        subst hx
        exact le_rfl
      · rename_i m2 hmr
        rcases List.mem_cons.mp hx with hxr | hxs
        · subst hxr
          split at h
          · rename_i hlt
            simp at h
            subst h
            omega
          · rename_i hlt
            simp at h
            subst h
            exact le_rfl
        · have hmax2 := ih hmr x hxs
          split at h
          · rename_i hlt
            simp at h
            subst h
            exact hmax2
          · rename_i hlt
            simp at h
            subst h
            omega

/-! ### Claims -/

theorem exist_head_after_save (db : SaveDB) (st : StageObj) (t : Int) :
    exist_stage_v2 (stage_save db st t).1 st.workspace st.name none = true := by
  simp only [stage_save]
  split
  · rename_i h
    unfold exist_stage_v2 at h ⊢
    unfold update_one_stage
    rcases List.any_eq_true.mp h with ⟨r, hr, hpred⟩
    apply List.any_eq_true.mpr
    refine ⟨stage_save_config st t, ?_, by simp [stage_save_config]⟩
    have hcond : (r.workspace == (stage_save_config st t).workspace
        && r.name == (stage_save_config st t).name
        && r.version == (stage_save_config st t).version) = true := by
      simpa [stage_save_config] using hpred
    have hmem : (fun q : StageRowV2 =>
        if q.workspace == (stage_save_config st t).workspace
            && q.name == (stage_save_config st t).name
            && q.version == (stage_save_config st t).version
        then stage_save_config st t else q) r
        ∈ List.map (fun q : StageRowV2 =>
            if q.workspace == (stage_save_config st t).workspace
                && q.name == (stage_save_config st t).name
                && q.version == (stage_save_config st t).version
            then stage_save_config st t else q) db.rows :=
      List.mem_map_of_mem _ hr
    simp only [hcond, if_true] at hmem
    exact hmem
  · unfold exist_stage_v2 create_one_stage_v2
    apply List.any_eq_true.mpr
    exact ⟨stage_save_config st t, List.mem_append_right _ (List.mem_singleton.mpr rfl),
      by simp [stage_save_config]⟩

/-- Claim C2, counterexample: saving the same stage content twice does
not leave the persisted record unchanged — the second `save()` both
returns and persists the fresh wall-clock timestamp (the HEAD row is
overwritten), refuting "the second save() does not overwrite the record
with a new timestamp".  (Both saves do agree on the version, which is
always the HEAD pseudo-version `None`, and no duplicate row is
written.) -/
theorem c2_counterexample :
    ((stage_save ⟨[]⟩ ⟨"w", "n", none, "code", none, none⟩ 100).1.rows.map
        (·.timestamp)) = [some 100]
    ∧ ((stage_save (stage_save ⟨[]⟩ ⟨"w", "n", none, "code", none, none⟩ 100).1
        (stage_save ⟨[]⟩ ⟨"w", "n", none, "code", none, none⟩ 100).2 200).1.rows.map
        (·.timestamp)) = [some 200]
    ∧ ((stage_save (stage_save ⟨[]⟩ ⟨"w", "n", none, "code", none, none⟩ 100).1
        (stage_save ⟨[]⟩ ⟨"w", "n", none, "code", none, none⟩ 100).2 200).2.create_date
        = some 200) :=
  ⟨rfl, rfl, rfl⟩

/-- Claim C2 (amended): `save()` never computes a content fingerprint —
on every call it forces the version to the HEAD pseudo-version `None`,
so two successive saves agree on the version and write no duplicate row;
but the second save overwrites the persisted HEAD record with the fresh
wall-clock timestamp instead of returning the first record unchanged. -/
theorem c2_amended (db : SaveDB) (st : StageObj) (t1 t2 : Int) :
    ((stage_save db st t1).2).version = none
    ∧ ((stage_save (stage_save db st t1).1 (stage_save db st t1).2 t2).2).version = none
    ∧ ((stage_save (stage_save db st t1).1 (stage_save db st t1).2 t2).1).rows.length
        = ((stage_save db st t1).1).rows.length
    ∧ (∃ r ∈ ((stage_save (stage_save db st t1).1 (stage_save db st t1).2 t2).1).rows,
        r.workspace = st.workspace ∧ r.name = st.name ∧ r.version = none
          ∧ r.timestamp = some t2) := by
  have hex : exist_stage_v2 (stage_save db st t1).1 st.workspace st.name none = true :=
    exist_head_after_save db st t1
  have hws : (stage_save db st t1).2.workspace = st.workspace := rfl
  have hnm : (stage_save db st t1).2.name = st.name := rfl
  have hsecond : (stage_save (stage_save db st t1).1 (stage_save db st t1).2 t2).1
      = update_one_stage (stage_save db st t1).1
          (stage_save_config (stage_save db st t1).2 t2) := by
    conv_lhs => rw [stage_save]
    rw [hws, hnm]
    simp only [hex, if_true]
  refine ⟨rfl, rfl, ?_, ?_⟩
  · rw [hsecond]
    unfold update_one_stage
    simp
  · rcases List.any_eq_true.mp hex with ⟨r, hr, hpred⟩
    refine ⟨stage_save_config (stage_save db st t1).2 t2, ?_, rfl, rfl, rfl, rfl⟩
    rw [hsecond]
    unfold update_one_stage
    have hcond : (r.workspace == (stage_save_config (stage_save db st t1).2 t2).workspace
        && r.name == (stage_save_config (stage_save db st t1).2 t2).name
        && r.version == (stage_save_config (stage_save db st t1).2 t2).version) = true := by
      simpa [stage_save_config, hws, hnm] using hpred
    have hmem : (fun q : StageRowV2 =>
        if q.workspace == (stage_save_config (stage_save db st t1).2 t2).workspace
            && q.name == (stage_save_config (stage_save db st t1).2 t2).name
            && q.version == (stage_save_config (stage_save db st t1).2 t2).version
        then stage_save_config (stage_save db st t1).2 t2 else q) r
        ∈ List.map (fun q : StageRowV2 =>
            if q.workspace == (stage_save_config (stage_save db st t1).2 t2).workspace
                && q.name == (stage_save_config (stage_save db st t1).2 t2).name
                && q.version == (stage_save_config (stage_save db st t1).2 t2).version
            then stage_save_config (stage_save db st t1).2 t2 else q)
            ((stage_save db st t1).1).rows :=
      List.mem_map_of_mem _ hr
    simp only [hcond, if_true] at hmem
    exact hmem

/-- Claim C4: the generated Dataset version id is a pure function of the
semantic fields only — identical file contents, pipeline, log message
and parent dataset give identical version ids for any two creation
timestamps and any two sets of file paths; the timestamp (set before
the fingerprint is computed) never enters the hash input. -/
theorem c4_version_pure (t1 t2 : Int) (files1 files2 : List FileEntry)
    (yp : Option (List String)) (lm : Option String) (pd : Option String)
    (hc : files1.map (·.content) = files2.map (·.content)) :
    (dataset_build_config t1 files1 yp lm pd).version
      = (dataset_build_config t2 files2 yp lm pd).version := by
  simp only [dataset_build_config, hc]

theorem c4_version_pure_witness :
    (dataset_build_config 100 [⟨"/cache/a/x.csv", "rows"⟩] none none none).version
      = (dataset_build_config 200 [⟨"/tmp/b/y.csv", "rows"⟩] none none none).version :=
  c4_version_pure 100 200 [⟨"/cache/a/x.csv", "rows"⟩] [⟨"/tmp/b/y.csv", "rows"⟩]
    none none none rfl

/-- Claim C6, counterexample: adding the edge B→A after A→B is not
rejected — `add_downstream` succeeds, the edge is stored, and the
resulting lineage graph contains the cycle A→B→A, refuting "rejected
with a CycleDetected failure, leaving the graph unchanged". -/
theorem c6_counterexample :
    add_downstream (some []) "A" "B" = .ok ([("A", "B")], "B")
    ∧ add_downstream (some [("A", "B")]) "B" "A"
        = .ok ([("A", "B"), ("B", "A")], "A")
    ∧ hasCycle [("A", "B"), ("B", "A")] = true :=
  ⟨rfl, rfl, rfl⟩

/-- Claim C6 (amended): `add_downstream` performs no cycle detection:
it fails exactly when the workflow context has no DAG (ValueError), and
otherwise unconditionally records the edge and returns the downstream
stage, so the resulting graph can contain cycles. -/
theorem c6_amended :
    (∀ a b, add_downstream none a b = .error .valueError)
    ∧ (∀ g a b, add_downstream (some g) a b = .ok (dag_add_edge g a b, b))
    ∧ (∀ g a b g2 s, add_downstream (some g) a b = .ok (g2, s) → (a, b) ∈ g2 ∧ s = b)
    ∧ hasCycle [("A", "B"), ("B", "A")] = true := by
  refine ⟨fun a b => rfl, fun g a b => rfl, ?_, rfl⟩
  intro g a b g2 s h
  have hg : g2 = dag_add_edge g a b ∧ s = b := by
    have : Except.ok (ε := PyErr) (dag_add_edge g a b, b) = .ok (g2, s) := h ▸ rfl
    simp at this
    exact ⟨this.1.symm, this.2.symm⟩
  refine ⟨?_, hg.2⟩
  rw [hg.1]
  unfold dag_add_edge
  split
  · assumption
  · exact List.mem_append_right _ (List.mem_singleton.mpr rfl)

theorem c6_amended_witness :
    ("A", "B") ∈ [("A", "B")] ∧ "B" = "B" :=
  c6_amended.2.2.1 [] "A" "B" [("A", "B")] "B" rfl

/-- Claim C8: the code contradicts its own documentation at the
docstring's own example — `list_dataset(repo, 'dataset1[*]')` is
documented to raise `ValueError: Invalid dataset identifier`, but the
pattern's name class admits brackets, so the whole text matches as the
name glob (split group absent) and the call returns normally with no
matches instead of failing. -/
theorem c8_split_not_rejected :
    listDatasetIdentMatch "dataset1[*]" = some ("dataset1[*]", none, none)
    ∧ list_dataset ⟨[⟨"dataset1", [⟨"train", ["1234567a"]⟩]⟩]⟩ (some "dataset1[*]")
        = .ok []
    ∧ list_dataset ⟨[⟨"dataset1", [⟨"train", ["1234567a"]⟩]⟩]⟩ (some "data@latest")
        = .error .valueError :=
  ⟨rfl, rfl, rfl⟩

/-- Claim C9, counterexample: `__eq__` compares `repr` while `__hash__`
hashes `str`, and the two disagree on unpublished datasets — a dataset
with version `None` and one reloaded from a row with version `''` (via
`from_dict`) compare equal (both repr as `w.n ! Unpublished`) yet hash
different strings (`w.n@None` vs `w.n@`), refuting "equal Datasets
always have equal hashes". -/
theorem c9_counterexample :
    datasetEq ⟨"w", "n", none, "m1", none, "f1"⟩
        (.ds (dataset_from_dict ⟨"w", "n", "", "m2", "f2"⟩)) = true
    ∧ datasetHashInput ⟨"w", "n", none, "m1", none, "f1"⟩
        ≠ datasetHashInput (dataset_from_dict ⟨"w", "n", "", "m2", "f2"⟩) :=
  ⟨rfl, by decide⟩

/-- Claim C9 (amended): `__eq__` is False for any non-Dataset and is
repr-equality for Datasets; `__hash__` is derived from `__str__`
(always `workspace.name@version`, a `None` version printing as the text
`None`), which coincides with `__repr__` exactly on fully-published
datasets — so equal published datasets have equal hash strings, and any
two unpublished datasets with the same workspace and name compare equal
regardless of their files, parents or log messages (hash equality is
not guaranteed for them, see the counterexample). -/
theorem c9_amended :
    (∀ d e, d.workspaceName ≠ "" → d.name ≠ "" → pyTruthyOpt d.version = true →
        e.workspaceName ≠ "" → e.name ≠ "" → pyTruthyOpt e.version = true →
        datasetEq d (.ds e) = true → datasetHashInput d = datasetHashInput e)
    ∧ (∀ d s, datasetEq d (.other s) = false)
    ∧ (∀ ws nm lm1 lm2 p1 p2 f1 f2,
        datasetEq ⟨ws, nm, none, lm1, p1, f1⟩ (.ds ⟨ws, nm, none, lm2, p2, f2⟩) = true) := by
  refine ⟨?_, fun d s => rfl, ?_⟩
  · intro d e hdw hdn hdv hew hen hev heq
    have hrepr : datasetRepr d = datasetRepr e := by
      have := (beq_iff_eq (a := datasetRepr d) (b := datasetRepr e)).mp heq
      exact this
    have hd : datasetHashInput d = datasetRepr d := by
      unfold datasetHashInput datasetStr datasetRepr
      rw [if_pos ⟨hdw, hdn, hdv⟩]
      match hv : d.version with
      | none => rw [hv] at hdv; simp [pyTruthyOpt] at hdv
      | some s => rfl
    have he : datasetHashInput e = datasetRepr e := by
      unfold datasetHashInput datasetStr datasetRepr
      rw [if_pos ⟨hew, hen, hev⟩]
      match hv : e.version with
      | none => rw [hv] at hev; simp [pyTruthyOpt] at hev
      | some s => rfl
    rw [hd, he, hrepr]
  · intro ws nm lm1 lm2 p1 p2 f1 f2
    simp [datasetEq, datasetRepr, pyTruthyOpt]

theorem c9_amended_witness :
    datasetHashInput ⟨"w", "n", some "abc", "m1", none, "f1"⟩
      = datasetHashInput ⟨"w", "n", some "abc", "m2", none, "f2"⟩ :=
  c9_amended.1 ⟨"w", "n", some "abc", "m1", none, "f1"⟩
    ⟨"w", "n", some "abc", "m2", none, "f2"⟩
    (by decide) (by decide) (by decide) (by decide) (by decide) (by decide) (by decide)

/-- Claim C10, counterexample: `Stage.get` with no version does not make
the stored default `'latest'` apply — the version is passed positionally
as `None`, so `get_one_stage` raises AttributeError
(`None.startswith('v')`) instead of running its latest-resolution
branch (which on the same store produces a different outcome). -/
theorem c10_counterexample :
    stage_get ⟨[⟨"w", "n", some "aaa", "null", "p", 1, none⟩], [⟨"w", "n", "aaa", 1⟩]⟩
        "w" "n" none = .error .attributeError
    ∧ get_one_stage ⟨[⟨"w", "n", some "aaa", "null", "p", 1, none⟩],
        [⟨"w", "n", "aaa", 1⟩]⟩ "w" "n" (some "latest") = .error .typeError
    ∧ stage_get ⟨[⟨"w", "n", some "aaa", "null", "p", 1, none⟩], [⟨"w", "n", "aaa", 1⟩]⟩
          "w" "n" none
        ≠ get_one_stage ⟨[⟨"w", "n", some "aaa", "null", "p", 1, none⟩],
          [⟨"w", "n", "aaa", 1⟩]⟩ "w" "n" (some "latest") := by
  refine ⟨rfl, rfl, ?_⟩
  intro h
  have h2 : (Except.error PyErr.attributeError : Except PyErr StageRecord)
      = .error .typeError := h
  simp at h2

/-- Evaluation of `Stage.get` when a nonempty version argument is
supplied and the identifier embeds no (truthy) version: the argument is
lowercased, `'none'` becomes `None`, and the result is handed to
`get_one_stage` positionally. -/
theorem stage_get_eval (db : StageDB) (dws nm : String) (v : String)
    (wsOpt : Option String) (nm2 : String) (verOpt : Option String)
    (hm : getDataModelIdentifierMatch nm = some (wsOpt, nm2, verOpt))
    (hv : v ≠ "") (hver : pyTruthyOpt verOpt = false) :
    stage_get db dws nm (some v)
      = get_one_stage db
          (match wsOpt with
            | some w0 => if w0 ≠ "" then w0 else dws
            | none => dws) nm2
          (if pyLower v == "none" then none else some (pyLower v)) := by
  unfold stage_get
  simp only [hm]
  have htv : pyTruthyOpt (some v) = true := by simp [pyTruthyOpt, hv]
  have hnot : ¬(pyTruthyOpt (some v) = true ∧ pyTruthyOpt verOpt = true) := by
    rintro ⟨_, h2⟩
    rw [hver] at h2
    simp at h2
  rw [if_neg hnot]
  simp only [htv, eq_self_iff_true, if_true]
  rw [if_pos hv]
  cases wsOpt <;> rfl

/-- Claim C10 (amended): `Stage.get` does normalize as claimed — the
supplied version is handled case-insensitively and the literal `'none'`
in any letter case behaves exactly like an absent version — but when no
version survives, `None` is passed positionally to `get_one_stage`, so
the stored-procedure default `'latest'` never applies and the lookup
raises AttributeError instead. -/
theorem c10_amended :
    (∀ db dws nm v w, pyLower v = pyLower w →
        stage_get db dws nm (some v) = stage_get db dws nm (some w))
    ∧ (∀ db dws nm, (∀ ws0 nm0 ver0,
          getDataModelIdentifierMatch nm = some (ws0, nm0, ver0) → ver0 = none) →
        stage_get db dws nm (some "None") = stage_get db dws nm none)
    ∧ (∀ db dws nm ws0 nm0,
        getDataModelIdentifierMatch nm = some (ws0, nm0, none) →
        stage_get db dws nm none = .error .attributeError) := by
  have hlower_empty : ∀ s : String, pyLower s = "" → s = "" := by
    intro s h
    unfold pyLower at h
    have hd : s.data.map charLower = [] := congrArg String.data h
    have hnil := List.map_eq_nil_iff.mp hd
    match s with
    | ⟨l⟩ => simp at hnil; rw [hnil]
  refine ⟨?_, ?_, ?_⟩
  · intro db dws nm v w hvw
    match hm : getDataModelIdentifierMatch nm with
    | none =>
        unfold stage_get
        simp only [hm]
    | some (wsOpt, nm2, verOpt) =>
        by_cases hv : v = ""
        · have hw : w = "" := by
            apply hlower_empty
            rw [← hvw, hv]
            rfl
          subst hv
          subst hw
          rfl
        · have hw : w ≠ "" := by
            intro hw0
            apply hv
            apply hlower_empty
            rw [hvw, hw0]
            rfl
          by_cases hver : pyTruthyOpt verOpt = true
          · have hev : ∀ u : String, u ≠ "" →
                stage_get db dws nm (some u) = .error .valueError := by
              intro u hu
              unfold stage_get
              simp only [hm]
              rw [if_pos ⟨by simp [pyTruthyOpt, hu], hver⟩]
            rw [hev v hv, hev w hw]
          · simp only [Bool.not_eq_true] at hver
            rw [stage_get_eval db dws nm v wsOpt nm2 verOpt hm hv hver,
              stage_get_eval db dws nm w wsOpt nm2 verOpt hm hw hver, hvw]
  · intro db dws nm hpar
    match hm : getDataModelIdentifierMatch nm with
    | none =>
        unfold stage_get
        simp only [hm]
    | some (wsOpt, nm2, verOpt) =>
        have hver : verOpt = none := hpar wsOpt nm2 verOpt hm
        subst hver
        rw [stage_get_eval db dws nm "None" wsOpt nm2 none hm (by decide) rfl]
        rw [if_pos (show (pyLower "None" == "none") = true by decide)]
        unfold stage_get
        simp only [hm]
        simp only [pyTruthyOpt, Bool.false_eq_true, false_and, if_neg, ite_false,
          not_false_iff]
        cases wsOpt <;> rfl
  · intro db dws nm ws0 nm0 hm
    unfold stage_get
    simp only [hm]
    simp only [pyTruthyOpt, Bool.false_eq_true, false_and, if_neg, ite_false,
      not_false_iff]
    cases ws0 <;> rfl

theorem c10_amended_witness :
    stage_get (⟨[], []⟩ : StageDB) "w" "n" none = .error .attributeError :=
  c10_amended.2.2 ⟨[], []⟩ "w" "n" none "n" rfl

theorem mem_of_headq_eq_some {α : Type} {l : List α} {a : α}
    (h : l.head? = some a) : a ∈ l := by
  cases l with
  | nil => simp at h
  | cons b bs =>
      simp at h
      rw [← h]
      exact List.mem_cons_self b bs

/-- Claim C1, counterexample: with versions `aaa` (tagged `1`) and `zzz`
(untagged) stored for `(w, n)`, `get_many_stages` with
`version='latest'` never consults the tag table and returns the record
with the greatest version string `zzz` — not the record owning the
highest tag (`aaa`) — refuting the claim for `get_many_stages`. -/
theorem c1_counterexample :
    ((get_many_stages ⟨[⟨"w", "n", some "aaa", "null", "p", 1, none⟩,
          ⟨"w", "n", some "zzz", "null", "p", 2, none⟩], [⟨"w", "n", "aaa", 1⟩]⟩
        "w" "n" (some "latest") false).map (·.version)) = [some "zzz"]
    ∧ tagRowsFor ⟨[⟨"w", "n", some "aaa", "null", "p", 1, none⟩,
          ⟨"w", "n", some "zzz", "null", "p", 2, none⟩], [⟨"w", "n", "aaa", 1⟩]⟩
        "w" "n" = [⟨"w", "n", "aaa", 1⟩]
    ∧ (get_many_stages ⟨[⟨"w", "n", some "aaa", "null", "p", 1, none⟩,
          ⟨"w", "n", some "zzz", "null", "p", 2, none⟩], []⟩
        "w" "n" (some "latest") false).map (·.version) = [some "zzz"] :=
  ⟨rfl, rfl, rfl⟩

/-- Claim C1 (amended): `get_one_stage` resolves `'latest'` through the
tag table — its selected row pair is the stage row owning the maximal
tag for `(workspace, name)`, and with no tag at all the fetch comes back
empty and the call fails (TypeError on `po[0]`) rather than falling back
to an untagged version; `get_many_stages` with `'latest'`, by contrast,
ignores the tag table entirely (its result is invariant under any
replacement of the tag rows) and returns per partition the row with the
greatest version string among the non-HEAD rows. -/
theorem c1_amended (db : StageDB) (ws nm : String) :
    (tagRowsFor db ws nm = [] →
        get_one_stage db ws nm (some "latest") = .error .typeError)
    ∧ (∀ r t, get_one_stage_latest_select db ws nm = some (r, t) →
        t ∈ tagRowsFor db ws nm ∧ r ∈ db.stages ∧ r.version = some t.version
          ∧ ∀ u ∈ tagRowsFor db ws nm, u.tag ≤ t.tag)
    ∧ (∀ tags2 v all, get_many_stages ⟨db.stages, tags2⟩ ws nm v all
        = get_many_stages db ws nm v all)
    ∧ (∀ r, r ∈ get_many_stages db ws nm (some "latest") false →
        r ∈ db.stages ∧ (∃ s, r.version = some s ∧ s ≠ "")
          ∧ ∀ x ∈ db.stages, x.workspace = r.workspace → x.name = r.name →
              (∃ s2, x.version = some s2 ∧ s2 ≠ "") →
              strLt (verKey r) (verKey x) = false) := by
  have hlatest : get_one_stage db ws nm (some "latest")
      = (match get_one_stage_latest_select db ws nm with
        | none => .error .typeError
        | some (r, t) =>
            (match assembleTag (some t.tag) with
              | .error e => .error e
              | .ok tg => .ok ⟨r.workspace, r.name, r.version, tg, r.params,
                  r.script_path, r.timestamp⟩)) := rfl
  have hmany : get_many_stages db ws nm (some "latest") false
      = latestPerPartition (db.stages.filter fun r =>
          r.workspace == ws && globMatch nm r.name
            && (match r.version with | some s => decide (s ≠ "") | none => false)) := rfl
  refine ⟨?_, ?_, fun tags2 v all => rfl, ?_⟩
  · intro h
    have hsel : get_one_stage_latest_select db ws nm = none := by
      unfold get_one_stage_latest_select
      rw [h]
      rfl
    rw [hlatest, hsel]
  · intro r t h
    unfold get_one_stage_latest_select at h
    match hmr : maxTagRow (tagRowsFor db ws nm) with
    | none => rw [hmr] at h; simp at h
    | some t2 =>
        rw [hmr] at h
        dsimp only at h
        match hhd : (db.stages.filter fun q =>
            q.workspace == ws && q.name == nm && q.version == some t2.version).head? with
        | none => rw [hhd] at h; simp at h
        | some r2 =>
            rw [hhd] at h
            simp only [Option.some.injEq, Prod.mk.injEq] at h
            obtain ⟨hr2, ht2⟩ := h
            rw [ht2, hr2] at hhd
            have hrmem : r ∈ db.stages.filter fun q =>
                q.workspace == ws && q.name == nm && q.version == some t.version :=
              mem_of_headq_eq_some hhd
            have hfilter := List.mem_filter.mp hrmem
            have hver : r.version = some t.version := by
              have hp := hfilter.2
              simp only [Bool.and_eq_true, beq_iff_eq] at hp
              exact hp.2
            exact ⟨ht2 ▸ maxTagRow_mem hmr, hfilter.1, hver,
              ht2 ▸ maxTagRow_isMax hmr⟩
  · intro r hr
    rw [hmany] at hr
    have hspec := latestPerPartition_spec hr
    have hmemf := List.mem_filter.mp hspec.1
    have hpred := hmemf.2
    simp only [Bool.and_eq_true, beq_iff_eq] at hpred
    refine ⟨hmemf.1, ?_, ?_⟩
    · match hv : r.version with
      | some s =>
          refine ⟨s, rfl, ?_⟩
          have := hpred.2
          rw [hv] at this
          simpa using this
      | none =>
          have := hpred.2
          rw [hv] at this
          simp at this
    · intro x hx hxw hxn hxv
      apply hspec.2 x ?_ hxw hxn
      apply List.mem_filter.mpr
      refine ⟨hx, ?_⟩
      simp only [Bool.and_eq_true, beq_iff_eq]
      rcases hxv with ⟨s2, hs2, hs2ne⟩
      refine ⟨⟨hxw.trans hpred.1.1, ?_⟩, ?_⟩
      · rw [hxn]
        exact hpred.1.2
      · rw [hs2]
        simpa using hs2ne

theorem c1_amended_witness :
    get_one_stage (⟨[⟨"w", "n", some "zzz", "null", "p", 2, none⟩], []⟩ : StageDB)
      "w" "n" (some "latest") = .error .typeError :=
  (c1_amended ⟨[⟨"w", "n", some "zzz", "null", "p", 2, none⟩], []⟩ "w" "n").1 rfl

theorem tagsFor_append_match (db : StageDB) (ws nm v : String) (t : Nat) :
    tagsFor ⟨db.stages, db.stage_tags ++ [⟨ws, nm, v, t⟩]⟩ ws nm
      = tagsFor db ws nm ++ [t] := by
  unfold tagsFor tagRowsFor
  rw [List.filter_append]
  simp

theorem foldl_max_range1 (k : Nat) : (List.range' 1 k).foldl max 0 = k := by
  induction k with
  | zero => rfl
  | succ k ih =>
      rw [List.range'_concat, List.foldl_append, ih]
      simp [Nat.max_def]
      omega

theorem publish_attach_tag_step (db : StageDB) (ws nm v : String) :
    publish_attach_tag db ws nm v
      = some ⟨db.stages, db.stage_tags
          ++ [⟨ws, nm, v, (tagsFor db ws nm).foldl max 0 + 1⟩]⟩ := by
  unfold publish_attach_tag create_one_stage_tag get_next_stage_version_tag
  have hparse : parseDigits
      (("v" ++ natToString ((tagsFor db ws nm).foldl max 0 + 1)).data.drop 1)
      = some ((tagsFor db ws nm).foldl max 0 + 1) :=
    parseDigits_natToString _ (Nat.succ_pos _)
  rw [hparse]

/-- Claim C3: starting from no tags for `(workspace, name)`, every
publish allocates `max(existing tags) + 1` (`COALESCE(MAX(tag), 0) + 1`),
so a sequence of N publishes attaches exactly the tag integers
`[1, 2, ..., N]` in publish order — strictly increasing, the first being
`v1` — while never touching the stage rows and only ever appending to
the tag table (no tag row is reused, mutated or reassigned). -/
theorem c3_publish_tags (db : StageDB) (ws nm : String) (versions : List String)
    (h : tagsFor db ws nm = []) :
    ∃ db2, publish_seq db ws nm versions = some db2
      ∧ tagsFor db2 ws nm = List.range' 1 versions.length
      ∧ db2.stages = db.stages
      ∧ ∃ suffix, db2.stage_tags = db.stage_tags ++ suffix := by
  suffices hgen : ∀ (vs : List String) (d : StageDB) (k : Nat),
      tagsFor d ws nm = List.range' 1 k →
      ∃ db2, publish_seq d ws nm vs = some db2
        ∧ tagsFor db2 ws nm = List.range' 1 (k + vs.length)
        ∧ db2.stages = d.stages
        ∧ ∃ suffix, db2.stage_tags = d.stage_tags ++ suffix by
    have h0 : tagsFor db ws nm = List.range' 1 0 := by simpa using h
    have hg := hgen versions db 0 h0
    simpa using hg
  intro vs
  induction vs with
  | nil =>
      intro d k hk
      exact ⟨d, rfl, by simpa using hk, rfl, [], by simp⟩
  | cons v vs ih =>
      intro d k hk
      have hmax : (tagsFor d ws nm).foldl max 0 = k := by
        rw [hk]
        exact foldl_max_range1 k
      have hstep := publish_attach_tag_step d ws nm v
      rw [hmax] at hstep
      have htags2 : tagsFor ⟨d.stages, d.stage_tags ++ [⟨ws, nm, v, k + 1⟩]⟩ ws nm
          = List.range' 1 (k + 1) := by
        rw [tagsFor_append_match, hk]
        rw [List.range'_concat]
        congr 2
        omega
      rcases ih ⟨d.stages, d.stage_tags ++ [⟨ws, nm, v, k + 1⟩]⟩ (k + 1) htags2 with
        ⟨db2, hseq, htag, hstages, suffix, hsuf⟩
      refine ⟨db2, ?_, ?_, hstages, ?_⟩
      · show (match publish_attach_tag d ws nm v with
          | none => none
          | some db3 => publish_seq db3 ws nm vs) = some db2
        rw [hstep]
        exact hseq
      · rw [htag]
        congr 1
        simp [List.length_cons]
        omega
      · exact ⟨⟨ws, nm, v, k + 1⟩ :: suffix, by rw [hsuf]; simp⟩

theorem c3_publish_tags_witness :
    ∃ db2, publish_seq ⟨[], []⟩ "w" "n" ["hash1", "hash2", "hash3"] = some db2
      ∧ tagsFor db2 "w" "n" = List.range' 1 3
      ∧ db2.stages = []
      ∧ ∃ suffix, db2.stage_tags = [] ++ suffix :=
  c3_publish_tags ⟨[], []⟩ "w" "n" ["hash1", "hash2", "hash3"] rfl

/-! ### Character facts used by the identifier lemmas -/

theorem charLe_iff (a b : Char) : (a ≤ b) ↔ a.toNat ≤ b.toNat := by
  rw [Char.le_def, UInt32.le_def, BitVec.le_def]
  exact Iff.rfl

theorem uint32_le_toNat (a b : UInt32) : (a ≤ b) ↔ a.toNat ≤ b.toNat := by
  rw [UInt32.le_def, BitVec.le_def]
  exact Iff.rfl

theorem charValNat (c : Char) : c.val.toNat = c.toNat := rfl

/-- Lower-case hex digit characters (`[0-9a-f]`), the alphabet of stored
digests and of lowercased digest prefixes. -/
def hexLowerChar (c : Char) : Bool :=
  (48 ≤ c.toNat ∧ c.toNat ≤ 57) || (97 ≤ c.toNat ∧ c.toNat ≤ 102)

/-- Plain identifier characters (ASCII letters, digits, underscore,
dot): the alphabet of ordinary dataset/stage names, free of glob and
grammar metacharacters. -/
def plainIdentChar (c : Char) : Bool :=
  (48 ≤ c.toNat ∧ c.toNat ≤ 57) || (65 ≤ c.toNat ∧ c.toNat ≤ 90)
    || (97 ≤ c.toNat ∧ c.toNat ≤ 122) || c.toNat = 95 || c.toNat = 46

theorem char_beq_false_of_toNat_ne {c : Char} (d : Char) (h : c.toNat ≠ d.toNat) :
    (c == d) = false := by
  rw [beq_eq_false_iff_ne]
  intro he
  exact h (congrArg Char.toNat he)

theorem hexLowerChar_toNat {c : Char} (h : hexLowerChar c = true) :
    (48 ≤ c.toNat ∧ c.toNat ≤ 57) ∨ (97 ≤ c.toNat ∧ c.toNat ≤ 102) := by
  unfold hexLowerChar at h
  simp only [Bool.or_eq_true, decide_eq_true_eq] at h
  tauto

theorem plainIdentChar_toNat {c : Char} (h : plainIdentChar c = true) :
    (48 ≤ c.toNat ∧ c.toNat ≤ 57) ∨ (65 ≤ c.toNat ∧ c.toNat ≤ 90)
      ∨ (97 ≤ c.toNat ∧ c.toNat ≤ 122) ∨ c.toNat = 95 ∨ c.toNat = 46 := by
  unfold plainIdentChar at h
  simp only [Bool.or_eq_true, decide_eq_true_eq] at h
  tauto

theorem hexLowerChar_isHexChar {c : Char} (h : hexLowerChar c = true) :
    isHexChar c = true := by
  have hn := hexLowerChar_toNat h
  unfold isHexChar Char.isDigit
  simp only [Bool.or_eq_true, Bool.and_eq_true, decide_eq_true_eq, charLe_iff,
    ge_iff_le, uint32_le_toNat, charValNat,
    show ((48 : UInt32)).toNat = 48 from rfl, show ((57 : UInt32)).toNat = 57 from rfl,
    show '0'.toNat = 48 from rfl, show '9'.toNat = 57 from rfl,
    show 'a'.toNat = 97 from rfl, show 'f'.toNat = 102 from rfl,
    show 'A'.toNat = 65 from rfl, show 'F'.toNat = 70 from rfl]
  omega

theorem hexLowerChar_globPlain {c : Char} (h : hexLowerChar c = true) :
    globPlain c = true := by
  have hn := hexLowerChar_toNat h
  unfold globPlain
  have h1 : (c == '*') = false := char_beq_false_of_toNat_ne '*'
    (by rw [show '*'.toNat = 42 from rfl]; omega)
  have h2 : (c == '?') = false := char_beq_false_of_toNat_ne '?'
    (by rw [show '?'.toNat = 63 from rfl]; omega)
  have h3 : (c == '[') = false := char_beq_false_of_toNat_ne '['
    (by rw [show '['.toNat = 91 from rfl]; omega)
  simp [h1, h2, h3]

theorem hexLowerChar_charLower {c : Char} (h : hexLowerChar c = true) :
    charLower c = c := by
  have hn := hexLowerChar_toNat h
  unfold charLower
  rw [if_neg]
  rintro ⟨h1, h2⟩
  omega

theorem char_eq_of_toNat95 {c : Char} (h : c.toNat = 95) : c = '_' := by
  apply Char.ext
  apply UInt32.toNat.inj
  show c.toNat = '_'.toNat
  rw [h]
  rfl

theorem char_eq_of_toNat46 {c : Char} (h : c.toNat = 46) : c = '.' := by
  apply Char.ext
  apply UInt32.toNat.inj
  show c.toNat = '.'.toNat
  rw [h]
  rfl

theorem plainIdentChar_isNameChar {c : Char} (h : plainIdentChar c = true) :
    isNameChar c = true := by
  have hn := plainIdentChar_toNat h
  unfold isNameChar Char.isAlphanum Char.isAlpha Char.isUpper Char.isLower Char.isDigit
  simp only [Bool.or_eq_true, Bool.and_eq_true, decide_eq_true_eq, charLe_iff,
    ge_iff_le, uint32_le_toNat, charValNat, beq_iff_eq,
    show ((48 : UInt32)).toNat = 48 from rfl, show ((57 : UInt32)).toNat = 57 from rfl,
    show ((65 : UInt32)).toNat = 65 from rfl, show ((90 : UInt32)).toNat = 90 from rfl,
    show ((97 : UInt32)).toNat = 97 from rfl, show ((122 : UInt32)).toNat = 122 from rfl,
    show 'a'.toNat = 97 from rfl, show 'z'.toNat = 122 from rfl,
    show 'A'.toNat = 65 from rfl, show 'Z'.toNat = 90 from rfl,
    show '0'.toNat = 48 from rfl, show '9'.toNat = 57 from rfl]
  rcases hn with hn | hn | hn | hn | hn
  · omega
  · omega
  · omega
  · have : c = '_' := char_eq_of_toNat95 hn
    simp [this]
  · have : c = '.' := char_eq_of_toNat46 hn
    simp [this]

theorem plainIdentChar_globPlain {c : Char} (h : plainIdentChar c = true) :
    globPlain c = true := by
  have hn := plainIdentChar_toNat h
  unfold globPlain
  have h1 : (c == '*') = false := char_beq_false_of_toNat_ne '*'
    (by rw [show '*'.toNat = 42 from rfl]; omega)
  have h2 : (c == '?') = false := char_beq_false_of_toNat_ne '?'
    (by rw [show '?'.toNat = 63 from rfl]; omega)
  have h3 : (c == '[') = false := char_beq_false_of_toNat_ne '['
    (by rw [show '['.toNat = 91 from rfl]; omega)
  simp [h1, h2, h3]

theorem plainIdentChar_not_at {c : Char} (h : plainIdentChar c = true) :
    (c == '@') = false := by
  have hn := plainIdentChar_toNat h
  exact char_beq_false_of_toNat_ne '@' (by rw [show '@'.toNat = 64 from rfl]; omega)

theorem plainIdentChar_not_bracket {c : Char} (h : plainIdentChar c = true) :
    (c == '[') = false := by
  have hn := plainIdentChar_toNat h
  exact char_beq_false_of_toNat_ne '[' (by rw [show '['.toNat = 91 from rfl]; omega)

/-! ### Identifier-parse lemmas for plain names with hex-prefix versions -/

theorem takeWhile_all {p : Char → Bool} (l : List Char) (h : l.all p = true) :
    l.takeWhile p = l := by
  induction l with
  | nil => rfl
  | cons c cs ih =>
      simp only [List.all_cons, Bool.and_eq_true] at h
      simp [List.takeWhile_cons, h.1, ih h.2]

theorem str_beq_empty_false {s : String} (h : s.data ≠ []) : (s == "") = false := by
  rw [beq_eq_false_iff_ne]
  intro he
  apply h
  rw [he]

theorem parseAfterName_plain_head (c : Char) (r : List Char)
    (h1 : (c == '[') = false) (h2 : (c == '@') = false) :
    parseAfterName (c :: r) = none := by
  unfold parseAfterName
  simp [h1, h2]

theorem parseAfterName_hex (B : List Char) (hne : B ≠ [])
    (hall : B.all isHexChar = true) (hlen : B.length ≤ 40) :
    parseAfterName ('@' :: B) = some (some B, none) := by
  have hB : B.takeWhile isHexChar = B := takeWhile_all B hall
  have hlen0 : B.length ≠ 0 := by
    intro h0
    exact hne (List.length_eq_zero.mp h0)
  unfold parseAfterName
  simp only [show (('@' : Char) == '[') = false from rfl, Bool.false_eq_true, if_false,
    show (('@' : Char) == '@') = true from rfl, if_true, hB]
  rw [if_neg]
  · rw [List.drop_length]
  · intro hcond
    simp only [Bool.or_eq_true, beq_iff_eq, decide_eq_true_eq] at hcond
    omega

theorem lazyNameMatch_plain (A B : List Char) : ∀ pre, A ≠ [] →
    A.all plainIdentChar = true → B ≠ [] → B.all isHexChar = true →
    B.length ≤ 40 →
    lazyNameMatch pre (A ++ '@' :: B) = some (pre ++ A, some B, none) := by
  induction A with
  | nil =>
      intro pre hne
      simp at hne
  | cons a A2 ih =>
      intro pre hne hall hBne hBall hBlen
      simp only [List.all_cons, Bool.and_eq_true] at hall
      show lazyNameMatch pre (a :: (A2 ++ '@' :: B)) = _
      unfold lazyNameMatch
      rw [if_pos (plainIdentChar_isNameChar hall.1)]
      match A2 with
      | [] =>
          rw [show ([] : List Char) ++ '@' :: B = '@' :: B from rfl,
            parseAfterName_hex B hBne hBall hBlen]
      | a2 :: A3 =>
          have ha2 : plainIdentChar a2 = true := by
            have := hall.2
            simp only [List.all_cons, Bool.and_eq_true] at this
            exact this.1
          have hpa : parseAfterName ((a2 :: A3) ++ '@' :: B) = none := by
            show parseAfterName (a2 :: (A3 ++ '@' :: B)) = none
            exact parseAfterName_plain_head a2 _ (plainIdentChar_not_bracket ha2)
              (plainIdentChar_not_at ha2)
          rw [hpa]
          rw [ih (pre ++ [a]) (by simp) hall.2 hBne hBall hBlen]
          simp

theorem pyLower_eq_self {s : String} (h : s.data.all hexLowerChar = true) :
    pyLower s = s := by
  unfold pyLower
  have hmap : s.data.map charLower = s.data := by
    have hpt : ∀ c ∈ s.data, charLower c = id c := by
      intro c hc
      simp only [List.all_eq_true] at h
      simpa using hexLowerChar_charLower (h c hc)
    rw [List.map_congr_left hpt, List.map_id]
  rw [hmap]

theorem listDatasetIdentMatch_plain (dsName token : String)
    (hA : dsName.data ≠ []) (hAc : dsName.data.all plainIdentChar = true)
    (hB : token.data ≠ []) (hBc : token.data.all isHexChar = true)
    (hBlen : token.data.length ≤ 40) :
    listDatasetIdentMatch (dsName ++ "@" ++ token)
      = some (dsName, some token, none) := by
  unfold listDatasetIdentMatch
  have hdata : (dsName ++ "@" ++ token).data = dsName.data ++ '@' :: token.data := by
    show (dsName.data ++ "@".data) ++ token.data = dsName.data ++ '@' :: token.data
    rw [List.append_assoc]
    rfl
  rw [hdata, lazyNameMatch_plain dsName.data token.data [] hA hAc hB hBc hBlen]
  rfl

/-- Evaluation of the hex branch of `get_one_stage`: a version token
that is neither `'latest'` nor `'v'`-prefixed is answered by exact
`WHERE version = :version` match, LEFT JOINed with its tag row. -/
theorem get_one_stage_hex (db : StageDB) (ws nm v : String)
    (hv1 : (v == "latest") = false) (hv2 : (v.data.head? == some 'v') = false) :
    get_one_stage db ws nm (some v)
      = (match (db.stages.filter fun r => r.workspace == ws && r.name == nm
            && r.version == some v).head? with
        | none => .error .typeError
        | some r =>
            (match assembleTag (((db.stage_tags.filter fun t => t.workspace == ws
                && t.name == nm && t.version == v).head?).map (·.tag)) with
              | .error e => .error e
              | .ok tg => .ok ⟨r.workspace, r.name, r.version, tg, r.params,
                  r.script_path, r.timestamp⟩)) := by
  unfold get_one_stage
  dsimp only
  rw [if_neg (by simp [hv1]), if_neg (by simp [hv2])]

/-- Evaluation of `list_dataset` on one plain dataset directory queried
with an embedded lowercase hex prefix: every stored version key whose
digest starts with the prefix is returned (with no error on multiple
matches), and nothing else is. -/
theorem list_dataset_hex_query (dsName stem : String) (versions : List String)
    (token : String) (hA : dsName.data ≠ [])
    (hAc : dsName.data.all plainIdentChar = true) (hB : token.data ≠ [])
    (hBc : token.data.all hexLowerChar = true) (hBlen : token.data.length ≤ 40) :
    list_dataset ⟨[⟨dsName, [⟨stem, versions⟩]⟩]⟩ (some (dsName ++ "@" ++ token))
      = .ok ((versions.filter fun s => token.data.isPrefixOf s.data).map
          fun s => (dsName, stem, s)) := by
  have hBhex : token.data.all isHexChar = true := by
    simp only [List.all_eq_true] at hBc ⊢
    exact fun c hc => hexLowerChar_isHexChar (hBc c hc)
  have hident : ((dsName ++ "@" ++ token : String)).data ≠ [] := by
    show dsName.data ++ "@".data ++ token.data ≠ []
    simp
  unfold list_dataset
  dsimp only
  rw [str_beq_empty_false hident]
  simp only [Bool.false_eq_true, if_false]
  rw [listDatasetIdentMatch_plain dsName token hA hAc hB hBhex hBlen]
  dsimp only
  rw [str_beq_empty_false hA]
  simp only [Bool.false_eq_true, if_false]
  rw [pyLower_eq_self hBc]
  have hsplit0 : pyLower "*" = "*" := rfl
  rw [hsplit0]
  have hglobself : globMatch dsName dsName = true := by
    apply globMatch_self
    simp only [List.all_eq_true] at hAc ⊢
    exact fun c hc => plainIdentChar_globPlain (hAc c hc)
  have hfilterds : ((⟨[⟨dsName, [⟨stem, versions⟩]⟩]⟩ : RepoModel).datasets.filter
      fun d => globMatch dsName d.dirName) = [⟨dsName, [⟨stem, versions⟩]⟩] := by
    simp [List.filter, hglobself]
  rw [show (if ("*" : String) == "all" then "*" else "*") = "*" from rfl]
  rw [hfilterds]
  unfold listScanDirs
  have hyaml : globMatch "*.yaml" (stem ++ ".yaml") = true :=
    globMatch_star_suffix ".yaml".data stem.data (by decide)
  have hsplits : ([⟨stem, versions⟩] : List SplitFile).filter (fun f =>
      globMatch ("*" ++ ".yaml") (f.stem ++ ".yaml")) = [⟨stem, versions⟩] := by
    simp [List.filter, hyaml]
  rw [hsplits]
  have hverfilter : versions.filter (fun s => globMatch (token ++ "*") s)
      = versions.filter (fun s => token.data.isPrefixOf s.data) := by
    apply List.filter_congr
    intro s hs
    exact globMatch_plain_star token s (by
      simp only [List.all_eq_true] at hBc ⊢
      exact fun c hc => hexLowerChar_globPlain (hBc c hc))
  unfold listScanDirs
  simp only [List.flatMap_cons, List.flatMap_nil, List.append_nil, hverfilter]

/-- Claim C5, counterexample: with the single version `ab12` stored for
`(w, n)`, the 2-character hex token `ab` is a prefix of exactly one
stored digest, yet single-record resolution does not return that record
— `get_one_stage` matches the version column exactly (`WHERE version =
:version`) and fails (TypeError on the empty fetch), refuting
"resolution succeeds exactly when precisely one stored version's digest
starts with that prefix". -/
theorem c5_counterexample :
    ("ab".data.isPrefixOf "ab12".data) = true
    ∧ get_one_stage ⟨[⟨"w", "n", some "ab12", "null", "p", 1, none⟩], []⟩
        "w" "n" (some "ab") = .error .typeError
    ∧ get_one_stage ⟨[⟨"w", "n", some "ab12", "null", "p", 1, none⟩], []⟩
        "w" "n" (some "ab12")
        = .ok ⟨"w", "n", some "ab12", none, "null", "p", 1⟩ :=
  ⟨rfl, rfl, rfl⟩

/-- Claim C5 (amended): `get_one_stage` treats a non-`latest`,
non-`v`-prefixed version token as an exact digest — it returns a record
only with `version` equal to the full token, and when no row carries
exactly that version it fails (TypeError on the empty fetch), so a
strict hex prefix of a stored digest resolves to a failure, never to a
record and never to an `AmbiguousReference`-style error (no such error
exists in the module); `list_dataset` is the only prefix-aware path: it
returns every version whose digest starts with the (lowercase hex)
token and raises nothing when several match. -/
theorem c5_amended :
    (∀ db ws nm v rec, (v == "latest") = false →
        (v.data.head? == some 'v') = false →
        get_one_stage db ws nm (some v) = .ok rec → rec.version = some v)
    ∧ (∀ db ws nm v, (v == "latest") = false →
        (v.data.head? == some 'v') = false →
        (∀ r ∈ db.stages, ¬(r.workspace = ws ∧ r.name = nm ∧ r.version = some v)) →
        get_one_stage db ws nm (some v) = .error .typeError)
    ∧ (∀ dsName stem versions token, dsName.data ≠ [] →
        dsName.data.all plainIdentChar = true → token.data ≠ [] →
        token.data.all hexLowerChar = true → token.data.length ≤ 40 →
        list_dataset ⟨[⟨dsName, [⟨stem, versions⟩]⟩]⟩ (some (dsName ++ "@" ++ token))
          = .ok ((versions.filter fun s => token.data.isPrefixOf s.data).map
              fun s => (dsName, stem, s))) := by
  refine ⟨?_, ?_, ?_⟩
  · intro db ws nm v rec hv1 hv2 h
    rw [get_one_stage_hex db ws nm v hv1 hv2] at h
    match hhd : (db.stages.filter fun r => r.workspace == ws && r.name == nm
        && r.version == some v).head? with
    | none => rw [hhd] at h; simp at h
    | some r =>
        rw [hhd] at h
        have hrmem := mem_of_headq_eq_some hhd
        have hfilter := List.mem_filter.mp hrmem
        have hver : r.version = some v := by
          have hp := hfilter.2
          simp only [Bool.and_eq_true, beq_iff_eq] at hp
          exact hp.2
        match hat : assembleTag (((db.stage_tags.filter fun t => t.workspace == ws
            && t.name == nm && t.version == v).head?).map (·.tag)) with
        | .error e => rw [hat] at h; simp at h
        | .ok tg =>
            rw [hat] at h
            simp only [Except.ok.injEq] at h
            rw [← h]
            exact hver
  · intro db ws nm v hv1 hv2 hnone
    rw [get_one_stage_hex db ws nm v hv1 hv2]
    have hfil : (db.stages.filter fun r => r.workspace == ws && r.name == nm
        && r.version == some v) = [] := by
      apply List.filter_eq_nil_iff.mpr
      intro r hr
      intro hp
      simp only [Bool.and_eq_true, beq_iff_eq] at hp
      exact hnone r hr ⟨hp.1.1, hp.1.2, hp.2⟩
    rw [hfil]
    rfl
  · intro dsName stem versions token h1 h2 h3 h4 h5
    exact list_dataset_hex_query dsName stem versions token h1 h2 h3 h4 h5

theorem c5_amended_witness :
    list_dataset ⟨[⟨"ds", [⟨"train", ["ab12", "ab34", "cd56"]⟩]⟩]⟩ (some ("ds" ++ "@" ++ "ab"))
      = .ok ((["ab12", "ab34", "cd56"].filter fun s => "ab".data.isPrefixOf s.data).map
          fun s => ("ds", "train", s)) :=
  c5_amended.2.2 "ds" "train" ["ab12", "ab34", "cd56"] "ab" (by decide) (by decide)
    (by decide) (by decide) (by decide)

/-! ### Allocation lemmas for `Stage.publish` -/

theorem foldl_max_init_le (l : List Nat) : ∀ i, i ≤ l.foldl max i := by
  induction l with
  | nil => intro i; exact le_rfl
  | cons x xs ih =>
      intro i
      calc i ≤ max i x := Nat.le_max_left i x
        _ ≤ xs.foldl max (max i x) := ih (max i x)

theorem le_foldl_max {l : List Nat} {a : Nat} (h : a ∈ l) : ∀ i, a ≤ l.foldl max i := by
  induction l with
  | nil => simp at h
  | cons x xs ih =>
      intro i
      rcases List.mem_cons.mp h with hx | hx
      · subst hx
        calc a ≤ max i a := Nat.le_max_right i a
          _ ≤ xs.foldl max (max i a) := foldl_max_init_le xs (max i a)
      · show a ≤ xs.foldl max (max i x)
        exact ih hx (max i x)

theorem natToString_inj {a b : Nat} (ha : 0 < a) (hb : 0 < b)
    (h : natToString a = natToString b) : a = b := by
  have hpa := parseDigits_natToString a ha
  rw [h, parseDigits_natToString b hb] at hpa
  exact (Option.some.inj hpa).symm

theorem numericVersions_update (db : SaveDB) (cfg : StageRowV2) (ws nm : String)
    (hcfg : cfg.version = none) :
    numericVersions (update_one_stage db cfg) ws nm = numericVersions db ws nm := by
  unfold numericVersions update_one_stage
  rw [List.filterMap_map]
  apply List.filterMap_congr
  intro r _
  by_cases hcond : (r.workspace == cfg.workspace && r.name == cfg.name
      && r.version == cfg.version) = true
  · have hrv : r.version = none := by
      simp only [Bool.and_eq_true, beq_iff_eq] at hcond
      rw [hcond.2, hcfg]
    simp only [Function.comp, hcfg, hrv]
    simp only [Bool.and_eq_true, beq_iff_eq] at hcond
    have hc2 : (r.workspace == cfg.workspace && r.name == cfg.name
        && ((none : Option String) == none)) = true := by
      simp [hcond.1.1, hcond.1.2]
    rw [if_pos hc2, hcfg]
    simp
  · simp [Function.comp, hcond]

theorem numericVersions_append (db : SaveDB) (cfg : StageRowV2) (ws nm : String) :
    numericVersions ⟨db.rows ++ [cfg]⟩ ws nm
      = numericVersions db ws nm
        ++ (if (cfg.workspace == ws && cfg.name == nm) = true
            then (cfg.version.bind fun s => parseDigits s.data).toList
            else []) := by
  unfold numericVersions
  rw [List.filterMap_append]
  congr 1
  by_cases hcond : (cfg.workspace == ws && cfg.name == nm) = true
  · simp [List.filterMap, hcond]
    match cfg.version.bind fun s => parseDigits s.data with
    | none => rfl
    | some t => rfl
  · simp [List.filterMap, hcond]

theorem numericVersions_save (db : SaveDB) (st : StageObj) (t : Int) (ws nm : String) :
    numericVersions (stage_save db st t).1 ws nm = numericVersions db ws nm := by
  unfold stage_save
  split
  · exact numericVersions_update db (stage_save_config st t) ws nm rfl
  · show numericVersions ⟨db.rows ++ [stage_save_config st t]⟩ ws nm = _
    rw [numericVersions_append]
    simp [stage_save_config]

/-- Claim C7, counterexample: publishing the same unchanged stage twice
is not a no-op — the second `publish()` performs no already-published
check, allocates the next numeric id (`2`) and inserts a fresh version
row (three rows total: the HEAD row plus two published rows), instead
of returning the existing record with its existing tag. -/
theorem c7_counterexample :
    (stage_publish ⟨[]⟩ ⟨"w", "n", none, "code", none, none⟩ 5).2.version = some "1"
    ∧ (stage_publish (stage_publish ⟨[]⟩ ⟨"w", "n", none, "code", none, none⟩ 5).1
        (stage_publish ⟨[]⟩ ⟨"w", "n", none, "code", none, none⟩ 5).2 6).2.version
        = some "2"
    ∧ (stage_publish ⟨[]⟩ ⟨"w", "n", none, "code", none, none⟩ 5).1.rows.length = 2
    ∧ (stage_publish (stage_publish ⟨[]⟩ ⟨"w", "n", none, "code", none, none⟩ 5).1
        (stage_publish ⟨[]⟩ ⟨"w", "n", none, "code", none, none⟩ 5).2 6).1.rows.length
        = 3 :=
  ⟨rfl, rfl, rfl, rfl⟩

/-- Claim C7 (amended): `Stage.publish` never consults the tag table and
emits no already-published signal — every call saves, then
unconditionally allocates `max(numeric published versions) + 1` and
inserts a new version row, so publishing unchanged content twice yields
two distinct version ids. -/
theorem c7_amended :
    (∀ db st now,
        (stage_publish db st now).2.version
          = some (natToString (get_next_stage_version_id (stage_save db st now).1
              st.workspace st.name))
      ∧ (stage_publish db st now).1.rows.length
          = (stage_save db st now).1.rows.length + 1)
    ∧ (∀ db st t1 t2,
        (stage_publish (stage_publish db st t1).1 (stage_publish db st t1).2 t2).2.version
          ≠ (stage_publish db st t1).2.version) := by
  constructor
  · intro db st now
    refine ⟨rfl, ?_⟩
    show ((stage_save db st now).1.rows ++ [_]).length = _
    simp
  · intro db st t1 t2 heq
    have hv1 : (stage_publish db st t1).2.version
        = some (natToString (get_next_stage_version_id (stage_save db st t1).1
            st.workspace st.name)) := rfl
    have hv2 : (stage_publish (stage_publish db st t1).1
          (stage_publish db st t1).2 t2).2.version
        = some (natToString (get_next_stage_version_id
            (stage_save (stage_publish db st t1).1 (stage_publish db st t1).2 t2).1
            st.workspace st.name)) := rfl
    rw [hv1, hv2] at heq
    have heqn := Option.some.inj heq
    have hm2 := natToString_inj (Nat.succ_pos _) (Nat.succ_pos _) heqn
    have hnum : numericVersions (stage_save (stage_publish db st t1).1
        (stage_publish db st t1).2 t2).1 st.workspace st.name
        = numericVersions (stage_save db st t1).1 st.workspace st.name
          ++ [get_next_stage_version_id (stage_save db st t1).1
              st.workspace st.name] := by
      rw [numericVersions_save]
      have hpub1 : (stage_publish db st t1).1
          = ⟨(stage_save db st t1).1.rows ++ [⟨st.workspace, st.name,
              some (natToString (get_next_stage_version_id (stage_save db st t1).1
                st.workspace st.name)),
              st.name ++ "/" ++ natToString (get_next_stage_version_id
                (stage_save db st t1).1 st.workspace st.name) ++ "/script.py",
              (stage_save db st t1).2.create_date, st.symbolize⟩]⟩ := rfl
      rw [hpub1, numericVersions_append]
      have hbind : ((some (natToString (get_next_stage_version_id
          (stage_save db st t1).1 st.workspace st.name)) : Option String).bind
            fun s => parseDigits s.data)
          = some (get_next_stage_version_id (stage_save db st t1).1
              st.workspace st.name) := by
        show parseDigits (natToString _).data = _
        exact parseDigits_natToString _ (Nat.succ_pos _)
      simp only [beq_self_eq_true, Bool.and_self, if_true, hbind]
      rfl
    have hmem : get_next_stage_version_id (stage_save db st t1).1 st.workspace st.name
        ∈ numericVersions (stage_save (stage_publish db st t1).1
            (stage_publish db st t1).2 t2).1 st.workspace st.name := by
      rw [hnum]
      exact List.mem_append_right _ (List.mem_singleton.mpr rfl)
    have hle := le_foldl_max hmem 0
    unfold get_next_stage_version_id at hm2 hle
    omega

theorem c7_amended_witness :
    (stage_publish ⟨[]⟩ ⟨"w", "n", none, "code", none, none⟩ 5).2.version
      = some (natToString (get_next_stage_version_id
          (stage_save ⟨[]⟩ ⟨"w", "n", none, "code", none, none⟩ 5).1 "w" "n")) :=
  (c7_amended.1 ⟨[]⟩ ⟨"w", "n", none, "code", none, none⟩ 5).1
